import Mathlib

/-!
Verification development for an S3-like object storage system
(backend modules: `config.py`, `database.py`, `permissions.py`,
`storage.py`, `search.py`).

The Python sources are shallowly embedded: every JSON collection
(`users`, `permissions`, `file_metadata`, `search_index`) becomes an
association list from string keys to records, the uploads directory tree
becomes an explicit list of `(user_id, bucket_name)` directories plus a
list of physical file paths, and each operation becomes a pure function
on that state.  Nondeterministic inputs of the real code (generated
UUIDs, `datetime.now()`, werkzeug's `secure_filename`, and the success
or failure of the two JSON writes performed by a compound update) are
passed in as explicit parameters.  Timestamps handled by `datetime`
arithmetic are modelled as integer second counts, with the calendar date
of an instant being its floor-quotient by 86400.
-/

namespace S3

/-! ## Basic string and association-list helpers -/

/-- Python `s.split('_', 1)`: `some (before, after)` when `s` contains an
underscore (split at the first one), `none` when it does not (in which
case Python returns the one-element list `[s]`). -/
def splitOnce (s : String) : Option (String × String) :=
  match s.toList.findIdx? (· = '_') with
  | some i => some (⟨s.toList.take i⟩, ⟨s.toList.drop (i + 1)⟩)
  | none => none

/-- Python `pathlib.Path(name).suffix`: the substring from the last dot
onwards, provided that dot is neither the first nor the last character;
otherwise the empty string. -/
def pathSuffix (name : String) : String :=
  let cs := name.toList
  match ((List.range cs.length).filter (fun i => cs.get? i = some '.')).getLast? with
  | some i => if 0 < i ∧ i < cs.length - 1 then ⟨cs.drop i⟩ else ""
  | none => ""

/-- Python `pat in s` on strings: substring containment. -/
def hasSub (pat s : String) : Bool :=
  (List.range (s.toList.length + 1)).any
    (fun i => (s.toList.drop i).take pat.toList.length = pat.toList)

/-- ASCII lowercasing of one character (models `str.lower`, which the
repository only applies to ASCII names in its tests). -/
def charLower (c : Char) : Char :=
  if 65 ≤ c.toNat ∧ c.toNat ≤ 90 then Char.ofNat (c.toNat + 32) else c

/-- Python `s.lower()`. -/
def strLower (s : String) : String := ⟨s.toList.map charLower⟩

/-- Python string `<`: lexicographic comparison by code point. -/
def listLtB : List Char → List Char → Bool
  | [], [] => false
  | [], _ :: _ => true
  | _ :: _, [] => false
  | a :: as, b :: bs =>
    if a.toNat < b.toNat then true
    else if b.toNat < a.toNat then false
    else listLtB as bs

/-- Python string `<=` (used by `sorted` on the date keys). -/
def strLeB (a b : String) : Bool := ! listLtB b.toList a.toList

/-- Python `s.startswith(pat)`. -/
def strStarts (s pat : String) : Bool :=
  decide (s.toList.take pat.toList.length = pat.toList)

/-- Python `s.strip()` (whitespace at both ends). -/
def strTrim (s : String) : String :=
  ⟨((s.toList.dropWhile Char.isWhitespace).reverse.dropWhile
      Char.isWhitespace).reverse⟩

/-- Lookup in an association list, mirroring Python `dict.get`. -/
def lookupA {α : Type} (m : List (String × α)) (k : String) : Option α :=
  (m.find? (fun kv => kv.1 = k)).map (·.2)

/-- Python `d[k] = v`: replace in place when the key is present
(preserving iteration order), append otherwise. -/
def setKey {α : Type} (m : List (String × α)) (k : String) (v : α) :
    List (String × α) :=
  if m.any (fun kv => kv.1 = k) then
    m.map (fun kv => if kv.1 = k then (k, v) else kv)
  else m ++ [(k, v)]

/-- Python `del d[k]` guarded by `if k in d`: drop every pair at key `k`. -/
def delKey {α : Type} (m : List (String × α)) (k : String) :
    List (String × α) :=
  m.filter (fun kv => kv.1 ≠ k)

/-! ## Configuration (`config.py`) -/

/-- `Config.PERMISSION_LEVELS`, as a key/display-name table. -/
def PERMISSION_LEVELS : List (String × String) :=
  [("view", "View Only"), ("upload", "Upload Access"), ("full", "Full Access")]

/-- The valid permission-level keys. -/
def PERMISSION_LEVEL_KEYS : List String := PERMISSION_LEVELS.map (·.1)

/-- `Config.PERMISSION_LEVELS[level]` display name (total on valid keys). -/
def levelName (level : String) : String :=
  ((PERMISSION_LEVELS.find? (fun kv => kv.1 = level)).map (·.2)).getD "Unknown"

/-- `Config.ALLOWED_EXTENSIONS`. -/
def ALLOWED_EXTENSIONS : List String :=
  [".jpg", ".jpeg", ".png", ".gif", ".bmp", ".svg", ".webp", ".ico",
   ".pdf", ".doc", ".docx", ".txt", ".rtf", ".odt", ".xls", ".xlsx",
   ".ppt", ".pptx", ".csv", ".mp4", ".avi", ".mov", ".wmv", ".flv",
   ".webm", ".mkv", ".m4v", ".mp3", ".wav", ".flac", ".aac", ".ogg",
   ".wma", ".m4a", ".zip", ".rar", ".7z", ".tar", ".gz", ".bz2",
   ".py", ".js", ".html", ".css", ".json", ".xml", ".sql", ".php",
   ".java", ".cpp", ".c", ".h"]

/-- `Config.BLOCKED_EXTENSIONS`. -/
def BLOCKED_EXTENSIONS : List String :=
  [".exe", ".sh", ".bat", ".cmd", ".msi", ".dll", ".scr", ".pif", ".vb", ".vbs"]

/-- `Config.MAX_FILE_SIZE` (100 MiB). -/
def MAX_FILE_SIZE : Nat := 100 * 1024 * 1024

/-- `Config.FILE_TYPE_CATEGORIES`. -/
def FILE_TYPE_CATEGORIES : List (String × String) :=
  [(".jpg", "image"), (".jpeg", "image"), (".png", "image"), (".gif", "image"),
   (".bmp", "image"), (".svg", "image"), (".webp", "image"), (".ico", "image"),
   (".pdf", "document"), (".doc", "document"), (".docx", "document"),
   (".txt", "document"), (".rtf", "document"), (".odt", "document"),
   (".xls", "document"), (".xlsx", "document"), (".ppt", "document"),
   (".pptx", "document"), (".csv", "document"),
   (".mp4", "video"), (".avi", "video"), (".mov", "video"), (".wmv", "video"),
   (".flv", "video"), (".webm", "video"), (".mkv", "video"), (".m4v", "video"),
   (".mp3", "audio"), (".wav", "audio"), (".flac", "audio"), (".aac", "audio"),
   (".ogg", "audio"), (".wma", "audio"), (".m4a", "audio"),
   (".zip", "archive"), (".rar", "archive"), (".7z", "archive"),
   (".tar", "archive"), (".gz", "archive"), (".bz2", "archive"),
   (".py", "code"), (".js", "code"), (".html", "code"), (".css", "code"),
   (".json", "code"), (".xml", "code"), (".sql", "code"), (".php", "code"),
   (".java", "code"), (".cpp", "code"), (".c", "code"), (".h", "code")]

/-- `StorageManager._get_file_type`.  The source iterates the
`FILE_TYPE_CATEGORIES` dict items as `(category, extensions)` pairs —
but the dict maps extension to category, so `category` is bound to the
extension key and `extensions` to the category string, and the test
`file_ext in extensions` is substring containment in that string.
Embedded exactly as written. -/
def get_file_type (filename : String) : String :=
  let ext := strLower (pathSuffix filename)
  match FILE_TYPE_CATEGORIES.find? (fun kv => hasSub ext kv.2) with
  | some kv => kv.1
  | none => "other"

/-- `Config.get_file_size_category`. -/
def get_file_size_category (size : Nat) : String :=
  if size < 1024 * 1024 then "small"
  else if size < 10 * 1024 * 1024 then "medium"
  else "large"

/-! ## Records -/

/-- A record of the `users` collection (the fields the core reads). -/
structure UserRec where
  email : String
  user_id : String
  deriving DecidableEq, Repr

/-- A record of the `permissions` collection. -/
structure Permission where
  bucket_id : String
  owner : String
  shared_with : String
  permission_level : String
  created_date : String
  deriving DecidableEq, Repr

/-- A record of the `file_metadata` collection (built by `upload_file`). -/
structure FileMeta where
  file_id : String
  file_name : String
  stored_filename : String
  file_type : String
  size : Nat
  upload_date : String
  bucket_id : String
  bucket_name : String
  user_id : String
  file_path : String
  deriving DecidableEq, Repr

/-- A record of the `search_index` collection: the projection of a
`FileMeta` written by `Database.add_file_metadata`. -/
structure SearchData where
  file_name : String
  file_type : String
  size : Nat
  upload_date : String
  bucket_id : String
  user_id : String
  deriving DecidableEq, Repr

/-- The search-index projection of a metadata record
(`search_data` in `Database.add_file_metadata`). -/
def toSearchData (m : FileMeta) : SearchData :=
  { file_name := m.file_name, file_type := m.file_type, size := m.size,
    upload_date := m.upload_date, bucket_id := m.bucket_id, user_id := m.user_id }

/-- The whole persistent state: the four JSON collections plus the
physical uploads tree (`buckets` lists the `(owner, bucket_name)`
directories, `files` the stored file paths). -/
structure Sys where
  users : List (String × UserRec)
  permissions : List (String × Permission)
  metadata : List (String × FileMeta)
  search_index : List (String × SearchData)
  buckets : List (String × String)
  files : List String
  deriving DecidableEq, Repr

/-! ## `database.py` -/

/-- `Database.get_user_by_email`: first user record with the given email. -/
def get_user_by_email (sys : Sys) (email : String) : Option UserRec :=
  (sys.users.map (·.2)).find? (fun u => u.email = email)

/-- `Database.get_user_buckets`: names of the directories under the
user's uploads directory. -/
def get_user_buckets (sys : Sys) (user_id : String) : List String :=
  (sys.buckets.filter (fun b => b.1 = user_id)).map (·.2)

/-- `Database.get_permission`: lookup at key `bucket_id ++ "_" ++ user_id`. -/
def get_permission (sys : Sys) (bucket_id user_id : String) : Option Permission :=
  lookupA sys.permissions (bucket_id ++ "_" ++ user_id)

/-- `Database.add_permission` (the JSON write is modelled as succeeding). -/
def add_permission (sys : Sys) (bucket_id owner_id shared_with level now : String) :
    Sys × Bool :=
  ({ sys with
      permissions := setKey sys.permissions (bucket_id ++ "_" ++ shared_with)
        { bucket_id := bucket_id, owner := owner_id, shared_with := shared_with,
          permission_level := level, created_date := now } }, true)

/-- `Database.update_permission`: mutate only `permission_level` of the
record at the pair's key; fail if absent. -/
def update_permission (sys : Sys) (bucket_id user_id level : String) :
    Sys × Bool :=
  let key := bucket_id ++ "_" ++ user_id
  if sys.permissions.any (fun kv => kv.1 = key) then
    ({ sys with
        permissions := sys.permissions.map (fun kv =>
          if kv.1 = key then (kv.1, { kv.2 with permission_level := level }) else kv) },
      true)
  else (sys, false)

/-- `Database.delete_permission`. -/
def delete_permission (sys : Sys) (bucket_id user_id : String) : Sys × Bool :=
  let key := bucket_id ++ "_" ++ user_id
  if sys.permissions.any (fun kv => kv.1 = key) then
    ({ sys with permissions := delKey sys.permissions key }, true)
  else (sys, false)

/-- `Database.get_shared_buckets_for_user`: permission records naming
the user as grantee. -/
def get_shared_buckets_for_user (sys : Sys) (user_id : String) : List Permission :=
  (sys.permissions.map (·.2)).filter (fun p => p.shared_with = user_id)

/-- `Database._get_accessible_bucket_ids`: owned bucket ids followed by
the bucket ids of shares granted to the user. -/
def accessible_bucket_ids (sys : Sys) (user_id : String) : List String :=
  (get_user_buckets sys user_id).map (fun b => user_id ++ "_" ++ b)
    ++ (get_shared_buckets_for_user sys user_id).map (·.bucket_id)

/-- `Database.get_files_by_bucket`. -/
def get_files_by_bucket (sys : Sys) (bucket_id : String) : List FileMeta :=
  (sys.metadata.map (·.2)).filter (fun f => f.bucket_id = bucket_id)

/-- `Database.get_file_metadata`. -/
def get_file_metadata (sys : Sys) (file_id : String) : Option FileMeta :=
  lookupA sys.metadata file_id

/-- `Database.add_file_metadata`.  The two JSON writes (detailed
metadata, then search index) each either commit or leave the previous
durable content intact; `w1`/`w2` say which happened.  The returned
flag is `success1 and success2`. -/
def add_file_metadata (sys : Sys) (m : FileMeta) (w1 w2 : Bool) : Sys × Bool :=
  let md := setKey sys.metadata m.file_id m
  let si := setKey sys.search_index m.file_id (toSearchData m)
  ({ sys with
      metadata := if w1 then md else sys.metadata,
      search_index := if w2 then si else sys.search_index },
    w1 && w2)

/-- `Database.delete_file_metadata` (writes modelled as succeeding). -/
def delete_file_metadata (sys : Sys) (file_id : String) : Sys :=
  { sys with
      metadata := delKey sys.metadata file_id,
      search_index := delKey sys.search_index file_id }

/-- `Database.delete_bucket_metadata`: drop the metadata (and search
projection) of every file whose `bucket_id` matches; permission records
are not touched. -/
def delete_bucket_metadata (sys : Sys) (user_id bucket_name : String) : Sys :=
  let bucket_id := user_id ++ "_" ++ bucket_name
  (get_files_by_bucket sys bucket_id).foldl
    (fun s f => delete_file_metadata s f.file_id) sys

/-! ## Search filters and query matching (`database.py`) -/

/-- The filter dictionary accepted by `Database.search_files`.  A field
set to `none` models an absent key; Python also skips a filter whose
value is falsy (the empty string), which `isTruthy` reproduces. -/
structure Filters where
  file_type : Option String
  size_category : Option String
  date_range : Option String
  bucket_id : Option String
  deriving DecidableEq, Repr

/-- Python truthiness of `filters.get(k)` for a string-valued key. -/
def isTruthy (o : Option String) : Bool :=
  match o with
  | none => false
  | some s => s ≠ ""

/-- `Database._check_date_range`.  `parse` models
`datetime.fromisoformat` (`none` = raised), timestamps are second
counts, and the calendar date of `t` is `t.fdiv 86400`; Python's
`timedelta.days` is the floor-quotient of the difference by 86400. -/
def check_date_range (parse : String → Option Int) (now : Int)
    (upload_date date_range : String) : Bool :=
  if upload_date = "" then false
  else
    match parse upload_date with
    | none => false
    | some up =>
      if date_range = "today" then up.fdiv 86400 = now.fdiv 86400
      else if date_range = "week" then (now - up).fdiv 86400 ≤ 7
      else if date_range = "month" then (now - up).fdiv 86400 ≤ 30
      else if date_range = "year" then (now - up).fdiv 86400 ≤ 365
      else true

/-- `Database._apply_filters` (its `metadata` argument is accepted and
unused, as in the source). -/
def apply_filters (parse : String → Option Int) (now : Int)
    (sd : SearchData) (_md : Option FileMeta) (f : Filters) : Bool :=
  if isTruthy f.file_type ∧ some sd.file_type ≠ f.file_type then false
  else if isTruthy f.size_category ∧
      some (get_file_size_category sd.size) ≠ f.size_category then false
  else if isTruthy f.date_range ∧
      ¬ check_date_range parse now sd.upload_date (f.date_range.getD "") then false
  else if isTruthy f.bucket_id ∧ some sd.bucket_id ≠ f.bucket_id then false
  else true

/-- One entry of the list returned by `Database.search_files`: the
detailed metadata dict (possibly absent) updated with the search-index
fields, which therefore take precedence for the shared keys. -/
structure MergedEntry where
  meta : Option FileMeta
  sd : SearchData
  deriving DecidableEq, Repr

/-- `Database.search_files`: restrict the search index to the caller's
accessible buckets, then apply the query substring test and the
filters. -/
def search_files (sys : Sys) (parse : String → Option Int) (now : Int)
    (query : String) (user_id : String) (filters : Option Filters) :
    List MergedEntry :=
  let accessible := accessible_bucket_ids sys user_id
  sys.search_index.filterMap (fun kv =>
    if ¬ accessible.contains kv.2.bucket_id then none
    else if query ≠ "" ∧ ¬ hasSub (strLower query) (strLower kv.2.file_name) then none
    else
      match filters with
      | some f =>
        if ¬ apply_filters parse now kv.2 (lookupA sys.metadata kv.1) f then none
        else some ⟨lookupA sys.metadata kv.1, kv.2⟩
      | none => some ⟨lookupA sys.metadata kv.1, kv.2⟩)

/-! ## `permissions.py` -/

/-- `PermissionManager.share_bucket` (JSON writes modelled as
succeeding; `now` is the `created_date` a freshly created record
receives). -/
def share_bucket (sys : Sys) (now : String)
    (owner_id bucket_id shared_with_email permission_level : String) :
    Sys × Bool × String :=
  if ¬ PERMISSION_LEVEL_KEYS.contains permission_level then
    (sys, false, "Invalid permission level")
  else
    match splitOnce bucket_id with
    | none => (sys, false, "You can only share your own buckets")
    | some (o, _) =>
      if o ≠ owner_id then (sys, false, "You can only share your own buckets")
      else
        match get_user_by_email sys shared_with_email with
        | none => (sys, false, "User not found")
        | some u =>
          if u.user_id = owner_id then
            (sys, false, "Cannot share bucket with yourself")
          else
            match get_permission sys bucket_id u.user_id with
            | some _ =>
              let r := update_permission sys bucket_id u.user_id permission_level
              if r.2 then
                (r.1, true, "Permission updated to " ++ levelName permission_level)
              else (r.1, false, "Failed to update permission")
            | none =>
              let r := add_permission sys bucket_id owner_id u.user_id
                permission_level now
              if r.2 then
                (r.1, true,
                  "Bucket shared with " ++ levelName permission_level ++ " permission")
              else (r.1, false, "Failed to share bucket")

/-- The part of a bucket id before its first underscore, when there is
one (`bucket_id.split('_', 1)[0]` in the two-part case). -/
def ownerOf (bucket_id : String) : Option String :=
  (splitOnce bucket_id).map (·.1)

/-- `PermissionManager.check_permission_level`: `"owner"` when the part
of `bucket_id` before its first underscore equals `user_id`, otherwise
the stored level of the `(bucket_id, user_id)` share, or `"none"`. -/
def check_permission_level (sys : Sys) (user_id bucket_id : String) : String :=
  if ownerOf bucket_id = some user_id then "owner"
  else
    match get_permission sys bucket_id user_id with
    | some p => p.permission_level
    | none => "none"

/-- `PermissionManager.can_perform_action`. -/
def can_perform_action (sys : Sys) (user_id bucket_id action : String) : Bool :=
  let lvl := check_permission_level sys user_id bucket_id
  if lvl = "owner" then true
  else if lvl = "full" then true
  else if lvl = "upload" then action = "view" ∨ action = "upload"
  else if lvl = "view" then action = "view"
  else false

/-! ## `storage.py` -/

/-- `StorageManager._check_bucket_access`. -/
def check_bucket_access (sys : Sys) (user_id bucket_id action : String) : Bool :=
  match splitOnce bucket_id with
  | none => false
  | some (owner_id, _) =>
    if owner_id = user_id then true
    else
      match get_permission sys bucket_id user_id with
      | none => false
      | some p =>
        if action = "view" then
          p.permission_level ∈ ["view", "upload", "full"]
        else if action = "upload" then
          p.permission_level ∈ ["upload", "full"]
        else if action = "full" then p.permission_level = "full"
        else false

/-- Python `sep.join(l)`. -/
def joinSep (sep : String) : List String → String
  | [] => ""
  | [x] => x
  | x :: xs => x ++ sep ++ joinSep sep xs

/-- The rejection message of the allow-list check in
`StorageManager._validate_file` (the extension list is joined in the
set's iteration order, modelled here as declaration order). -/
def allowedRejectMsg : String :=
  "File type not allowed. Allowed types: " ++ joinSep ", " ALLOWED_EXTENSIONS

/-- The rejection message of the blocklist check in
`StorageManager._validate_file`. -/
def blockedRejectMsg : String :=
  "This file type is not allowed for security reasons"

/-- `StorageManager._validate_file`.  `sanitize` models werkzeug's
`secure_filename`; `content_length` is the declared length when the
`FileStorage` carries a truthy one.  Note the source tests the
allow-list before the blocklist. -/
def validate_file (sanitize : String → String) (filename : String)
    (content_length : Option Nat) : Bool × String :=
  if filename = "" then (false, "No file provided")
  else if (match content_length with
           | some n => n != 0 && decide (MAX_FILE_SIZE < n)
           | none => false) then
    (false, "File too large")
  else if ALLOWED_EXTENSIONS ≠ [] ∧
      ¬ ALLOWED_EXTENSIONS.contains (strLower (pathSuffix (sanitize filename))) then
    (false, allowedRejectMsg)
  else if BLOCKED_EXTENSIONS.contains (strLower (pathSuffix (sanitize filename))) then
    (false, blockedRejectMsg)
  else (true, "File valid")

/-- The metadata record `StorageManager.upload_file` builds for a saved
file (`size` is the byte count reported by `stat` after the save). -/
def mkUploadMeta (sanitize : String → String)
    (user_id bucket_name filename : String) (size : Nat)
    (file_id now : String) : FileMeta :=
  let original := sanitize filename
  let ext := pathSuffix original
  let unique := file_id ++ ext
  { file_id := file_id, file_name := original, stored_filename := unique,
    file_type := get_file_type original, size := size, upload_date := now,
    bucket_id := user_id ++ "_" ++ bucket_name, bucket_name := bucket_name,
    user_id := user_id,
    file_path := user_id ++ "/" ++ bucket_name ++ "/" ++ unique }

/-- `StorageManager.upload_file`: validate, save the bytes, then write
metadata and search index (`w1`/`w2` as in `add_file_metadata`); when
that compound write reports failure the saved bytes are unlinked and
the upload fails. -/
def upload_file (sys : Sys) (sanitize : String → String)
    (user_id bucket_name filename : String) (content_length : Option Nat)
    (size : Nat) (file_id now : String) (w1 w2 : Bool) :
    Sys × Bool × String × Option FileMeta :=
  if filename = "" then (sys, false, "No file provided", none)
  else if ¬ (get_user_buckets sys user_id).contains bucket_name then
    (sys, false, "Bucket not found or access denied", none)
  else if ¬ (validate_file sanitize filename content_length).1 then
    (sys, false, (validate_file sanitize filename content_length).2, none)
  else
    let m := mkUploadMeta sanitize user_id bucket_name filename size file_id now
    let sys1 := { sys with files := sys.files ++ [m.file_path] }
    let r := add_file_metadata sys1 m w1 w2
    if ¬ r.2 then
      ({ r.1 with files := r.1.files.filter (fun p => p ≠ m.file_path) },
        false, "Failed to save file metadata", none)
    else (r.1, true, "File uploaded successfully", some m)

/-- `StorageManager.delete_bucket`: ownership check, recursive removal
of the physical tree, then `delete_bucket_metadata`. -/
def delete_bucket (sys : Sys) (user_id bucket_name : String) :
    Sys × Bool × String :=
  if ¬ (get_user_buckets sys user_id).contains bucket_name then
    (sys, false, "Bucket not found or access denied")
  else
    let dir := user_id ++ "/" ++ bucket_name ++ "/"
    let sys1 := { sys with
      buckets := sys.buckets.filter (fun b => ¬ (b.1 = user_id ∧ b.2 = bucket_name)),
      files := sys.files.filter (fun p => ¬ strStarts p dir) }
    (delete_bucket_metadata sys1 user_id bucket_name, true,
      "Bucket deleted successfully")

/-- `StorageManager.rename_file` (JSON writes modelled as succeeding). -/
def rename_file (sys : Sys) (user_id file_id new_name : String) :
    Sys × Bool × String :=
  match get_file_metadata sys file_id with
  | none => (sys, false, "File not found")
  | some m =>
    if ¬ check_bucket_access sys user_id m.bucket_id "full" then
      (sys, false, "Insufficient permissions to rename file")
    else if new_name = "" ∨ strTrim new_name = "" then
      (sys, false, "Invalid file name")
    else
      let t := strTrim new_name
      let md := if sys.metadata.any (fun kv => kv.1 = file_id) then
          sys.metadata.map (fun kv =>
            if kv.1 = file_id then (kv.1, { kv.2 with file_name := t }) else kv)
        else sys.metadata
      let si := if sys.search_index.any (fun kv => kv.1 = file_id) then
          sys.search_index.map (fun kv =>
            if kv.1 = file_id then (kv.1, { kv.2 with file_name := t }) else kv)
        else sys.search_index
      ({ sys with metadata := md, search_index := si }, true,
        "File renamed successfully")

/-! ## `search.py` -/

/-- `SearchEngine._get_days_ago`: `timedelta.days` of `now - upload`,
i.e. the floor-quotient of the second difference by 86400; a parse
failure yields 999. -/
def daysAgoOf (parse : String → Option Int) (now : Int) (d : String) : Int :=
  match parse d with
  | some t => (now - t).fdiv 86400
  | none => 999

/-- One search result as it reaches `_sort_search_results`: the merged
record fields relevant to ranking, together with the `days_ago` and
`is_own_file` keys added by `_enrich_search_results` (999 and `false`
standing for an absent key, the defaults the scorer reads). -/
structure Enriched where
  file_name : String
  upload_date : String
  bucket_id : String
  user_id : String
  days_ago : Int
  is_own_file : Bool
  deriving DecidableEq, Repr

/-- `SearchEngine._enrich_search_results`, restricted to the fields the
ranking reads.  `is_own_file` compares the bucket-owner part of the
entry's `bucket_id` with the entry's own `user_id` field (the uploader)
— the requesting user is not consulted. -/
def enrich (parse : String → Option Int) (now : Int) (sd : SearchData) : Enriched :=
  { file_name := sd.file_name, upload_date := sd.upload_date,
    bucket_id := sd.bucket_id, user_id := sd.user_id,
    days_ago := if sd.upload_date = "" then 999 else daysAgoOf parse now sd.upload_date,
    is_own_file :=
      if sd.bucket_id = "" then false
      else
        match splitOnce sd.bucket_id with
        | some (o, _) => o = sd.user_id
        | none => false }

/-- `calculate_relevance_score` from `SearchEngine._sort_search_results`
(`ql` is the lowercased query). -/
def calculate_relevance_score (ql : String) (e : Enriched) : Int :=
  let filename := strLower e.file_name
  (if ql = filename then 100
   else if strStarts filename ql then 50
   else if hasSub ql filename then 25
   else 0)
  + (if e.days_ago ≤ 7 then 10 else if e.days_ago ≤ 30 then 5 else 0)
  + (if e.is_own_file then 5 else 0)

/-- The order `sorted(results, key=lambda x: x['upload_date'],
reverse=True)` realizes: `a` may precede `b` iff `a`'s date is ≥. -/
def dateGE (a b : Enriched) : Prop :=
  strLeB b.upload_date a.upload_date = true

/-- The order `sorted(results, key=lambda x: (score(x), x['upload_date']),
reverse=True)` realizes: descending lexicographic on (score, date). -/
def scoreGE (ql : String) (a b : Enriched) : Prop :=
  calculate_relevance_score ql b < calculate_relevance_score ql a
    ∨ (calculate_relevance_score ql a = calculate_relevance_score ql b
        ∧ strLeB b.upload_date a.upload_date = true)

instance : DecidableRel dateGE := fun a b =>
  inferInstanceAs (Decidable (strLeB b.upload_date a.upload_date = true))

instance (ql : String) : DecidableRel (scoreGE ql) := fun a b =>
  inferInstanceAs (Decidable
    (calculate_relevance_score ql b < calculate_relevance_score ql a
      ∨ (calculate_relevance_score ql a = calculate_relevance_score ql b
          ∧ strLeB b.upload_date a.upload_date = true)))

/-- `SearchEngine._sort_search_results`: with an empty query (or no
results) a stable descending sort by upload date, otherwise a stable
descending sort by (relevance score, upload date); Python's `sorted`
is a stable sort, realized here by insertion sort. -/
def sort_search_results (results : List Enriched) (query : String) :
    List Enriched :=
  if query = "" ∨ results = [] then List.insertionSort dateGE results
  else List.insertionSort (scoreGE (strLower query)) results

/-! ## Definitions following the spec's words (for comparison)

These two definitions are *not* translations of the source: each
renders the claim's own wording, to be compared against the embedded
code. -/

/-- Follows the claim C7 wording: the ownership bonus goes to the
*requesting* user when they own the file. -/
def claim_relevance_score (requester ql : String) (e : Enriched) : Int :=
  let filename := strLower e.file_name
  (if ql = filename then 100
   else if strStarts filename ql then 50
   else if hasSub ql filename then 25
   else 0)
  + (if e.days_ago ≤ 7 then 10 else if e.days_ago ≤ 30 then 5 else 0)
  + (if requester = e.user_id then 5 else 0)

/-- Follows the claim C8 wording: a date-range filter passes exactly
when the elapsed whole days between upload and now are at most
0 / 7 / 30 / 365. -/
def claim_date_range_pass (up now : Int) (range : String) : Bool :=
  if range = "today" then (now - up).fdiv 86400 ≤ 0
  else if range = "week" then (now - up).fdiv 86400 ≤ 7
  else if range = "month" then (now - up).fdiv 86400 ≤ 30
  else if range = "year" then (now - up).fdiv 86400 ≤ 365
  else false

/-- Follows the claim C5 wording: the same validation as
`validate_file` but with the blocklist test applied before the
allow-list test. -/
def validate_file_spec_order (sanitize : String → String) (filename : String)
    (content_length : Option Nat) : Bool × String :=
  if filename = "" then (false, "No file provided")
  else if (match content_length with
           | some n => n != 0 && decide (MAX_FILE_SIZE < n)
           | none => false) then
    (false, "File too large")
  else if BLOCKED_EXTENSIONS.contains (strLower (pathSuffix (sanitize filename))) then
    (false, blockedRejectMsg)
  else if ALLOWED_EXTENSIONS ≠ [] ∧
      ¬ ALLOWED_EXTENSIONS.contains (strLower (pathSuffix (sanitize filename))) then
    (false, allowedRejectMsg)
  else (true, "File valid")

/-! ## Concrete states and inputs used for witnesses and counterexamples -/

/-- A share of `alice_docs` granting `bob` upload access. -/
def permUploadBob : Permission :=
  { bucket_id := "alice_docs", owner := "alice", shared_with := "bob",
    permission_level := "upload", created_date := "2024-01-01T00:00:00" }

/-- A share of `alice_docs` granting `bob` view access. -/
def permViewBob : Permission :=
  { bucket_id := "alice_docs", owner := "alice", shared_with := "bob",
    permission_level := "view", created_date := "2024-01-01T00:00:00" }

/-- State in which `alice_docs` is shared with `bob` at `upload` level. -/
def sysC4 : Sys :=
  { users := [], permissions := [("alice_docs_bob", permUploadBob)],
    metadata := [], search_index := [], buckets := [], files := [] }

/-- A search-index record of a file stored in `u`'s bucket `docs`. -/
def sdReport : SearchData :=
  { file_name := "report.pdf", file_type := "document", size := 10,
    upload_date := "2024-01-01T00:00:00", bucket_id := "u_docs", user_id := "u" }

/-- State in which `u` owns bucket `docs` holding one indexed file. -/
def sysC1 : Sys :=
  { users := [], permissions := [], metadata := [],
    search_index := [("f1", sdReport)], buckets := [("u", "docs")], files := [] }

/-- State in which `u` owns an empty bucket `b`. -/
def sysC2 : Sys :=
  { users := [], permissions := [], metadata := [], search_index := [],
    buckets := [("u", "b")], files := [] }

/-- A stored file of `alice` in her bucket `docs`. -/
def metaF1 : FileMeta :=
  { file_id := "f1", file_name := "a.txt", stored_filename := "f1.txt",
    file_type := "other", size := 1, upload_date := "2024-01-01T00:00:00",
    bucket_id := "alice_docs", bucket_name := "docs", user_id := "alice",
    file_path := "alice/docs/f1.txt" }

/-- State with `alice`'s bucket `docs` (one file) shared with `bob`. -/
def sysC3 : Sys :=
  { users := [], permissions := [("alice_docs_bob", permViewBob)],
    metadata := [("f1", metaF1)], search_index := [("f1", toSearchData metaF1)],
    buckets := [("alice", "docs")], files := ["alice/docs/f1.txt"] }

/-- The registered user `bob`. -/
def userBob : UserRec := { email := "bob@example.com", user_id := "bob" }

/-- State with one registered user and nothing else — in particular no
bucket directory at all. -/
def sysC6 : Sys :=
  { users := [("bob", userBob)], permissions := [], metadata := [],
    search_index := [], buckets := [], files := [] }

/-- A date parser recognizing only the literal `"d"` (as 86340 s, i.e.
23:59 of day 0). -/
def parseC8 : String → Option Int := fun s => if s = "d" then some 86340 else none

/-- A search record whose upload date is the string `"d"`. -/
def sdC8 : SearchData :=
  { file_name := "x", file_type := "t", size := 0, upload_date := "d",
    bucket_id := "b", user_id := "u" }

/-- A date parser that fails on every input (every `days_ago` becomes
999). -/
def parseNone : String → Option Int := fun _ => none

/-- `alice`'s file in her own bucket, as a search record (query "a"
matches it as a leading-substring match). -/
def sdOwnAlice : SearchData :=
  { file_name := "ab", file_type := "t", size := 0,
    upload_date := "2020-01-02", bucket_id := "alice_x", user_id := "alice" }

/-- `bob`'s file in his own bucket (same match kind, older date). -/
def sdOwnBob : SearchData :=
  { file_name := "ac", file_type := "t", size := 0,
    upload_date := "2020-01-01", bucket_id := "bob_y", user_id := "bob" }

/-- A file whose name has the query `"report"` as a leading substring. -/
def sdStarts : SearchData :=
  { file_name := "report_final.pdf", file_type := "document", size := 0,
    upload_date := "2024-01-02", bucket_id := "u_docs", user_id := "u" }

/-- A file whose name contains `"report"` only as an inner substring. -/
def sdInner : SearchData :=
  { file_name := "myreport.pdf", file_type := "document", size := 0,
    upload_date := "2024-01-03", bucket_id := "u_docs", user_id := "u" }

/-- The 50-point tier of the relevance score: the lowercased file name
begins with the lowercased query without equalling it. -/
def startsMatch (ql : String) (e : Enriched) : Prop :=
  ¬ ql = strLower e.file_name ∧ strStarts (strLower e.file_name) ql = true

/-- The 25-point tier of the relevance score: the lowercased query
occurs in the lowercased file name only as an inner substring. -/
def innerMatch (ql : String) (e : Enriched) : Prop :=
  ¬ ql = strLower e.file_name ∧ ¬ strStarts (strLower e.file_name) ql = true
  ∧ hasSub ql (strLower e.file_name) = true

/-- Two enriched results for the query `"report"`: an inner-substring
match listed before a leading-substring match. -/
def listC7 : List Enriched := [enrich parseNone 0 sdInner, enrich parseNone 0 sdStarts]

/-- Two enriched results for requester `bob` and query `"a"`: `alice`'s
file in her own bucket (newer) and `bob`'s file in his own bucket
(older). -/
def listX : List Enriched :=
  [enrich parseNone 0 sdOwnAlice, enrich parseNone 0 sdOwnBob]

/-! ## Order facts about the Python string comparison -/

theorem listLtB_irrefl (a : List Char) : listLtB a a = false := by
  induction a with
  | nil => rfl
  | cons x xs ih => simp [listLtB, ih]

theorem listLtB_trans (a : List Char) :
    ∀ b c, listLtB a b = true → listLtB b c = true → listLtB a c = true := by
  induction a with
  | nil =>
    intro b c hab hbc
    cases b with
    | nil => exact absurd hab (by simp [listLtB])
    | cons y ys =>
      cases c with
      | nil => exact absurd hbc (by simp [listLtB])
      | cons z zs => simp [listLtB]
  | cons x xs ih =>
    intro b c hab hbc
    cases b with
    | nil => exact absurd hab (by simp [listLtB])
    | cons y ys =>
      cases c with
      | nil => exact absurd hbc (by simp [listLtB])
      | cons z zs =>
        simp only [listLtB] at hab hbc ⊢
        by_cases hxy : x.toNat < y.toNat
        · by_cases hyz : y.toNat < z.toNat
          · rw [if_pos (Nat.lt_trans hxy hyz)]
          · by_cases hzy : z.toNat < y.toNat
            · rw [if_neg hyz, if_pos hzy] at hbc
              exact absurd hbc (by simp)
            · rw [if_pos (show x.toNat < z.toNat by omega)]
        · by_cases hyx : y.toNat < x.toNat
          · rw [if_neg hxy, if_pos hyx] at hab
            exact absurd hab (by simp)
          · have hab' : listLtB xs ys = true := by
              rw [if_neg hxy, if_neg hyx] at hab
              exact hab
            by_cases hyz : y.toNat < z.toNat
            · rw [if_pos (show x.toNat < z.toNat by omega)]
            · by_cases hzy : z.toNat < y.toNat
              · rw [if_neg hyz, if_pos hzy] at hbc
                exact absurd hbc (by simp)
              · have hbc' : listLtB ys zs = true := by
                  rw [if_neg hyz, if_neg hzy] at hbc
                  exact hbc
                rw [if_neg (show ¬ x.toNat < z.toNat by omega),
                  if_neg (show ¬ z.toNat < x.toNat by omega)]
                exact ih ys zs hab' hbc'

theorem listLtB_asymm (a b : List Char) (h : listLtB a b = true) :
    listLtB b a = false := by
  by_contra h'
  have hba : listLtB b a = true := by
    cases hb : listLtB b a
    · exact absurd hb h'
    · rfl
  have := listLtB_trans a b a h hba
  rw [listLtB_irrefl] at this
  exact Bool.noConfusion this

theorem listLtB_eq_of_not (a : List Char) :
    ∀ b, listLtB a b = false → listLtB b a = false → a = b := by
  induction a with
  | nil =>
    intro b hab _
    cases b with
    | nil => rfl
    | cons y ys => exact absurd hab (by simp [listLtB])
  | cons x xs ih =>
    intro b hab hba
    cases b with
    | nil => exact absurd hba (by simp [listLtB])
    | cons y ys =>
      simp only [listLtB] at hab hba
      by_cases hxy : x.toNat < y.toNat
      · simp [hxy] at hab
      · by_cases hyx : y.toNat < x.toNat
        · simp [hxy, hyx] at hba
        · have hn : x.toNat = y.toNat := by omega
          have hx : x = y := Char.eq_of_val_eq (UInt32.ext hn)
          have := ih ys (by simpa [hxy, hyx] using hab) (by simpa [hxy, hyx] using hba)
          rw [hx, this]

theorem strLeB_total (a b : String) : strLeB a b = true ∨ strLeB b a = true := by
  unfold strLeB
  by_cases h : listLtB b.toList a.toList = true
  · right
    rw [listLtB_asymm _ _ h]
    rfl
  · left
    simp only [Bool.not_eq_true] at h
    rw [h]
    rfl

theorem strLeB_trans (a b c : String) (hab : strLeB a b = true)
    (hbc : strLeB b c = true) : strLeB a c = true := by
  unfold strLeB at *
  simp only [Bool.not_eq_true'] at hab hbc ⊢
  by_contra h'
  have hca : listLtB c.toList a.toList = true := by
    cases hc : listLtB c.toList a.toList
    · exact absurd hc h'
    · rfl
  by_cases hbc' : listLtB b.toList c.toList = true
  · exact Bool.noConfusion ((listLtB_trans _ _ _ hbc' hca).symm.trans hab)
  · have : b.toList = c.toList := listLtB_eq_of_not _ _
      (by cases hb : listLtB b.toList c.toList
          · rfl
          · exact absurd hb hbc') hbc
    rw [← this] at hca
    exact Bool.noConfusion (hca.symm.trans hab)

instance : IsTotal Enriched dateGE :=
  ⟨fun a b => strLeB_total b.upload_date a.upload_date⟩

instance : IsTrans Enriched dateGE :=
  ⟨fun _ _ _ h h' => strLeB_trans _ _ _ h' h⟩

instance (ql : String) : IsTotal Enriched (scoreGE ql) := by
  constructor
  intro a b
  rcases lt_trichotomy (calculate_relevance_score ql a) (calculate_relevance_score ql b)
    with h | h | h
  · exact Or.inr (Or.inl h)
  · rcases strLeB_total b.upload_date a.upload_date with h' | h'
    · exact Or.inl (Or.inr ⟨h, h'⟩)
    · exact Or.inr (Or.inr ⟨h.symm, h'⟩)
  · exact Or.inl (Or.inl h)

instance (ql : String) : IsTrans Enriched (scoreGE ql) := by
  constructor
  intro a b c hab hbc
  rcases hab with h1 | ⟨h1, d1⟩ <;> rcases hbc with h2 | ⟨h2, d2⟩
  · exact Or.inl (lt_trans h2 h1)
  · exact Or.inl (h2 ▸ h1)
  · exact Or.inl (h1 ▸ h2)
  · exact Or.inr ⟨h1.trans h2, strLeB_trans _ _ _ d2 d1⟩

/-! ## Association-list lemmas -/

theorem lookupA_any_true {α : Type} (m : List (String × α)) (k : String) (v : α)
    (h : lookupA m k = some v) : m.any (fun kv => kv.1 = k) = true := by
  unfold lookupA at h
  obtain ⟨kv, hfind⟩ : ∃ kv, m.find? (fun kv => kv.1 = k) = some kv := by
    cases hf : m.find? (fun kv => kv.1 = k)
    · rw [hf] at h
      exact absurd h (by simp)
    · exact ⟨_, rfl⟩
  rw [List.any_eq_true]
  refine ⟨kv, List.mem_of_find?_eq_some hfind, ?_⟩
  have hp := List.find?_some hfind
  simpa using hp

theorem lookupA_none_forall {α : Type} (m : List (String × α)) (k : String)
    (h : lookupA m k = none) : ∀ kv ∈ m, kv.1 ≠ k := by
  intro kv hmem
  unfold lookupA at h
  have hfind : m.find? (fun kv => kv.1 = k) = none := by
    cases hf : m.find? (fun kv => kv.1 = k)
    · rfl
    · rw [hf] at h
      exact absurd h (by simp)
  have := List.find?_eq_none.mp hfind kv hmem
  simpa using this

theorem lookupA_any_false {α : Type} (m : List (String × α)) (k : String)
    (h : lookupA m k = none) : m.any (fun kv => kv.1 = k) = false := by
  rw [List.any_eq_false]
  intro kv hmem
  simpa using lookupA_none_forall m k h kv hmem

theorem lookupA_cons {α : Type} (kv : String × α) (m : List (String × α))
    (k : String) :
    lookupA (kv :: m) k = if kv.1 = k then some kv.2 else lookupA m k := by
  unfold lookupA
  by_cases hk : kv.1 = k
  · rw [List.find?_cons_of_pos _ (by simpa using hk), if_pos hk]
    rfl
  · rw [List.find?_cons_of_neg _ (by simpa using hk), if_neg hk]

theorem lookupA_append_left {α : Type} (l1 l2 : List (String × α)) (k : String)
    (h : lookupA l1 k = none) : lookupA (l1 ++ l2) k = lookupA l2 k := by
  induction l1 with
  | nil => rfl
  | cons kv l1 ih =>
    rw [List.cons_append, lookupA_cons]
    rw [lookupA_cons] at h
    by_cases hk : kv.1 = k
    · rw [if_pos hk] at h
      exact absurd h (by simp)
    · rw [if_neg hk] at h ⊢
      exact ih h

theorem setKey_lookup_self {α : Type} (m : List (String × α)) (k : String)
    (v : α) : lookupA (setKey m k v) k = some v := by
  unfold setKey
  by_cases hany : m.any (fun kv => kv.1 = k) = true
  · rw [if_pos hany]
    induction m with
    | nil => simp at hany
    | cons kv m ih =>
      rw [List.map_cons]
      by_cases hk : kv.1 = k
      · rw [if_pos hk, lookupA_cons, if_pos rfl]
      · rw [if_neg hk, lookupA_cons, if_neg hk]
        refine ih ?_
        rw [List.any_cons] at hany
        simpa [hk] using hany
  · rw [if_neg hany]
    have hnone : lookupA m k = none := by
      cases hl : lookupA m k
      · rfl
      · exact absurd (lookupA_any_true m k _ hl) hany
    rw [lookupA_append_left _ _ _ hnone, lookupA_cons]
    simp

theorem setKey_lookup_ne {α : Type} (m : List (String × α)) (k j : String)
    (v : α) (hjk : j ≠ k) : lookupA (setKey m k v) j = lookupA m j := by
  unfold setKey
  by_cases hany : m.any (fun kv => kv.1 = k) = true
  · rw [if_pos hany]
    clear hany
    induction m with
    | nil => rfl
    | cons kv m ih =>
      rw [List.map_cons]
      by_cases hk : kv.1 = k
      · rw [if_pos hk, lookupA_cons, lookupA_cons,
          if_neg (show ¬((k, v).1 = j) from fun hh => hjk hh.symm),
          if_neg (show ¬(kv.1 = j) from fun hh => hjk (hh.symm.trans hk))]
        exact ih
      · rw [if_neg hk, lookupA_cons, lookupA_cons]
        by_cases hj : kv.1 = j
        · rw [if_pos hj, if_pos hj]
        · rw [if_neg hj, if_neg hj]
          exact ih
  · rw [if_neg hany]
    clear hany
    induction m with
    | nil =>
      rw [List.nil_append, lookupA_cons,
        if_neg (show ¬((k, v).1 = j) from fun hh => hjk hh.symm)]
    | cons kv m ih =>
      rw [List.cons_append, lookupA_cons, lookupA_cons]
      by_cases hj : kv.1 = j
      · rw [if_pos hj, if_pos hj]
      · rw [if_neg hj, if_neg hj]
        exact ih

theorem updMap_lookup_self {α : Type} (m : List (String × α)) (k : String)
    (f : α → α) (v : α) (h : lookupA m k = some v) :
    lookupA (m.map (fun kv => if kv.1 = k then (kv.1, f kv.2) else kv)) k
      = some (f v) := by
  induction m with
  | nil => exact absurd h (by simp [lookupA])
  | cons kv m ih =>
    rw [lookupA_cons] at h
    rw [List.map_cons]
    by_cases hk : kv.1 = k
    · rw [if_pos hk] at h
      rw [if_pos hk, lookupA_cons, if_pos hk]
      rw [← Option.some_inj.mp h]
    · rw [if_neg hk] at h
      rw [if_neg hk, lookupA_cons, if_neg hk]
      exact ih h

theorem updMap_lookup_ne {α : Type} (m : List (String × α)) (k j : String)
    (f : α → α) (hjk : j ≠ k) :
    lookupA (m.map (fun kv => if kv.1 = k then (kv.1, f kv.2) else kv)) j
      = lookupA m j := by
  induction m with
  | nil => rfl
  | cons kv m ih =>
    rw [List.map_cons]
    by_cases hk : kv.1 = k
    · rw [if_pos hk, lookupA_cons, lookupA_cons,
        if_neg (show ¬((kv.1, f kv.2).1 = j) from fun hh => hjk (hh.symm.trans hk)),
        if_neg (show ¬(kv.1 = j) from fun hh => hjk (hh.symm.trans hk))]
      exact ih
    · rw [if_neg hk, lookupA_cons, lookupA_cons]
      by_cases hj : kv.1 = j
      · rw [if_pos hj, if_pos hj]
      · rw [if_neg hj, if_neg hj]
        exact ih

theorem updMap_id {α : Type} (m : List (String × α)) (k : String) (f : α → α)
    (h : ∀ kv ∈ m, kv.1 ≠ k) :
    m.map (fun kv => if kv.1 = k then (kv.1, f kv.2) else kv) = m := by
  induction m with
  | nil => rfl
  | cons kv m ih =>
    rw [List.map_cons, if_neg (h kv (by simp))]
    rw [ih (fun kv' hm => h kv' (by simp [hm]))]

theorem strExt (a b : String) (h : a.data = b.data) : a = b := by
  cases a
  cases b
  cases h
  rfl

theorem usc_append_inj : ∀ (l1 l2 r1 r2 : List Char),
    '_' ∉ r1 → '_' ∉ r2 → l1 ++ '_' :: r1 = l2 ++ '_' :: r2 →
    l1 = l2 ∧ r1 = r2 := by
  intro l1
  induction l1 with
  | nil =>
    intro l2 r1 r2 h1 h2 he
    cases l2 with
    | nil =>
      rw [List.nil_append, List.nil_append] at he
      injection he with _ hr
      exact ⟨rfl, hr⟩
    | cons y l2 =>
      rw [List.nil_append, List.cons_append] at he
      injection he with _ hr
      have : '_' ∈ r1 := by
        rw [hr]
        exact List.mem_append_right l2 (List.mem_cons_self _ _)
      exact absurd this h1
  | cons x l1 ih =>
    intro l2 r1 r2 h1 h2 he
    cases l2 with
    | nil =>
      rw [List.nil_append, List.cons_append] at he
      injection he with _ hr
      have : '_' ∈ r2 := by
        rw [← hr]
        exact List.mem_append_right l1 (List.mem_cons_self _ _)
      exact absurd this h2
    | cons y l2 =>
      rw [List.cons_append, List.cons_append] at he
      injection he with hxy hrest
      obtain ⟨ha, hb⟩ := ih l2 r1 r2 h1 h2 hrest
      exact ⟨by rw [hxy, ha], hb⟩

/-- The permission-record key `bucket_id ++ "_" ++ grantee` determines
both parts when grantee ids contain no underscore (the spec's global
invariant that user ids are underscore-free). -/
theorem joinKey_inj (b1 s1 b2 s2 : String)
    (h1 : '_' ∉ s1.data) (h2 : '_' ∉ s2.data)
    (he : b1 ++ "_" ++ s1 = b2 ++ "_" ++ s2) : b1 = b2 ∧ s1 = s2 := by
  have hd := congrArg String.data he
  rw [String.data_append, String.data_append, String.data_append,
    String.data_append] at hd
  rw [show ("_" : String).data = ['_'] from rfl] at hd
  rw [List.append_assoc, List.append_assoc] at hd
  have := usc_append_inj b1.data b2.data s1.data s2.data h1 h2 (by simpa using hd)
  exact ⟨strExt _ _ this.1, strExt _ _ this.2⟩

/-- `share_bucket` on valid inputs with an existing share: the record's
level is updated in place. -/
theorem share_bucket_update_eq (sys : Sys)
    (now owner_id bucket_id email level rest : String) (u : UserRec)
    (p : Permission)
    (hl : PERMISSION_LEVEL_KEYS.contains level = true)
    (hsplit : splitOnce bucket_id = some (owner_id, rest))
    (hmail : get_user_by_email sys email = some u)
    (hne : u.user_id ≠ owner_id)
    (hgp : get_permission sys bucket_id u.user_id = some p) :
    share_bucket sys now owner_id bucket_id email level
      = ({ sys with permissions := sys.permissions.map (fun kv =>
            if kv.1 = bucket_id ++ "_" ++ u.user_id then
              (kv.1, { kv.2 with permission_level := level }) else kv) },
        true, "Permission updated to " ++ levelName level) := by
  unfold share_bucket
  rw [if_neg (fun hc => hc hl)]
  simp only [hsplit]
  rw [if_neg (show ¬(owner_id ≠ owner_id) from fun hno => hno rfl)]
  simp only [hmail]
  rw [if_neg hne]
  simp only [hgp]
  unfold update_permission
  rw [if_pos (lookupA_any_true sys.permissions _ p hgp)]
  rfl

/-- `share_bucket` on valid inputs with no existing share: a fresh
record is stored at the pair's key. -/
theorem share_bucket_add_eq (sys : Sys)
    (now owner_id bucket_id email level rest : String) (u : UserRec)
    (hl : PERMISSION_LEVEL_KEYS.contains level = true)
    (hsplit : splitOnce bucket_id = some (owner_id, rest))
    (hmail : get_user_by_email sys email = some u)
    (hne : u.user_id ≠ owner_id)
    (hgp : get_permission sys bucket_id u.user_id = none) :
    share_bucket sys now owner_id bucket_id email level
      = ({ sys with permissions := (setKey sys.permissions
            (bucket_id ++ "_" ++ u.user_id)
            ⟨bucket_id, owner_id, u.user_id, level, now⟩) },
        true, "Bucket shared with " ++ levelName level ++ " permission") := by
  unfold share_bucket
  rw [if_neg (fun hc => hc hl)]
  simp only [hsplit]
  rw [if_neg (show ¬(owner_id ≠ owner_id) from fun hno => hno rfl)]
  simp only [hmail]
  rw [if_neg hne]
  simp only [hgp]
  unfold add_permission
  rfl

theorem updMap_keys (perms : List (String × Permission)) (K l2 : String) :
    (perms.map (fun kv => if kv.1 = K then
        (kv.1, { kv.2 with permission_level := l2 }) else kv)).map
      (fun kv => kv.1) = perms.map (fun kv => kv.1) := by
  rw [List.map_map]
  refine List.map_congr_left ?_
  intro kv _
  by_cases hk : kv.1 = K <;> simp [Function.comp, hk]

theorem updMap_wf (perms : List (String × Permission)) (K l2 : String)
    (hwf : ∀ kv ∈ perms, kv.1 = kv.2.bucket_id ++ "_" ++ kv.2.shared_with) :
    ∀ kv ∈ perms.map (fun kv => if kv.1 = K then
        (kv.1, { kv.2 with permission_level := l2 }) else kv),
      kv.1 = kv.2.bucket_id ++ "_" ++ kv.2.shared_with := by
  intro kv hkv
  rw [List.mem_map] at hkv
  obtain ⟨kv0, h0, rfl⟩ := hkv
  by_cases hk : kv0.1 = K
  · rw [if_pos hk]
    exact hwf kv0 h0
  · rw [if_neg hk]
    exact hwf kv0 h0

theorem updMap_free (perms : List (String × Permission)) (K l2 : String)
    (hfree : ∀ kv ∈ perms, '_' ∉ kv.2.shared_with.data) :
    ∀ kv ∈ perms.map (fun kv => if kv.1 = K then
        (kv.1, { kv.2 with permission_level := l2 }) else kv),
      '_' ∉ kv.2.shared_with.data := by
  intro kv hkv
  rw [List.mem_map] at hkv
  obtain ⟨kv0, h0, rfl⟩ := hkv
  by_cases hk : kv0.1 = K
  · rw [if_pos hk]
    exact hfree kv0 h0
  · rw [if_neg hk]
    exact hfree kv0 h0

/-- After updating the level of the record at the pair's key, the pair
has exactly one record, carrying the new level — provided every record
key is the join of its fields, grantee ids are underscore-free, keys
are unique, and the key is present. -/
theorem filter_updated (bucket_id uid l2 : String)
    (hufree : '_' ∉ uid.data) :
    ∀ perms : List (String × Permission),
    (∀ kv ∈ perms, kv.1 = kv.2.bucket_id ++ "_" ++ kv.2.shared_with) →
    (∀ kv ∈ perms, '_' ∉ kv.2.shared_with.data) →
    ((perms.map (fun kv => kv.1)).Nodup) →
    ∀ p : Permission, lookupA perms (bucket_id ++ "_" ++ uid) = some p →
    (((perms.map (fun kv =>
        if kv.1 = bucket_id ++ "_" ++ uid then
          (kv.1, { kv.2 with permission_level := l2 }) else kv)).filter
      (fun kv => kv.2.bucket_id = bucket_id ∧ kv.2.shared_with = uid)).map
      (fun kv => kv.2.permission_level)) = [l2] := by
  intro perms
  induction perms with
  | nil =>
    intro _ _ _ p hgp
    exact absurd hgp (by simp [lookupA])
  | cons kv perms ih =>
    intro hwf hfree hnd p hgp
    rw [lookupA_cons] at hgp
    rw [List.map_cons]
    rw [List.map_cons, List.nodup_cons] at hnd
    by_cases hk : kv.1 = bucket_id ++ "_" ++ uid
    · rw [if_pos hk]
      have hj := joinKey_inj kv.2.bucket_id kv.2.shared_with bucket_id uid
        (hfree kv (by simp)) hufree ((hwf kv (by simp)).symm.trans hk)
      rw [List.filter_cons_of_pos (by simpa using And.intro hj.1 hj.2)]
      have htail : ((perms.map (fun kv =>
          if kv.1 = bucket_id ++ "_" ++ uid then
            (kv.1, { kv.2 with permission_level := l2 }) else kv)).filter
          (fun kv => kv.2.bucket_id = bucket_id ∧ kv.2.shared_with = uid)) = [] := by
        rw [List.filter_eq_nil_iff]
        intro kv' hkv'
        rw [List.mem_map] at hkv'
        obtain ⟨kv0, hkv0, rfl⟩ := hkv'
        have hk0 : kv0.1 ≠ bucket_id ++ "_" ++ uid := by
          intro he
          exact hnd.1 (List.mem_map.mpr ⟨kv0, hkv0, by rw [he, hk]⟩)
        rw [if_neg hk0]
        simp only [decide_eq_true_eq, not_and]
        intro hb hsW
        exact hk0 (by rw [hwf kv0 (by simp [hkv0]), hb, hsW])
      rw [htail]
      rfl
    · rw [if_neg hk]
      rw [if_neg hk] at hgp
      have hPf : ¬(kv.2.bucket_id = bucket_id ∧ kv.2.shared_with = uid) := by
        rintro ⟨hb, hsW⟩
        exact hk (by rw [hwf kv (by simp), hb, hsW])
      rw [List.filter_cons_of_neg (by simpa using hPf)]
      exact ih (fun kv' h' => hwf kv' (by simp [h']))
        (fun kv' h' => hfree kv' (by simp [h'])) hnd.2 p hgp

/-! ## Claim theorems -/

/-- C4: for every user, bucket and requested action in
{view, upload, full}: a resolved level of `owner` or `full` authorizes
every action; `upload` authorizes exactly view and upload; `view`
authorizes exactly view; and with no permission record and a
non-matching owner part, every action is refused. -/
theorem C4_authorization_matrix (sys : Sys) (user_id bucket_id action : String)
    (_ha : action = "view" ∨ action = "upload" ∨ action = "full") :
    (check_permission_level sys user_id bucket_id = "owner" →
      can_perform_action sys user_id bucket_id action = true)
    ∧ (check_permission_level sys user_id bucket_id = "full" →
      can_perform_action sys user_id bucket_id action = true)
    ∧ (check_permission_level sys user_id bucket_id = "upload" →
      (can_perform_action sys user_id bucket_id action = true ↔
        (action = "view" ∨ action = "upload")))
    ∧ (check_permission_level sys user_id bucket_id = "view" →
      (can_perform_action sys user_id bucket_id action = true ↔ action = "view"))
    ∧ (ownerOf bucket_id ≠ some user_id →
      get_permission sys bucket_id user_id = none →
      can_perform_action sys user_id bucket_id action = false) := by
  refine ⟨?_, ?_, ?_, ?_, ?_⟩
  · intro h
    simp [can_perform_action, h]
  · intro h
    simp [can_perform_action, h]
  · intro h
    simp [can_perform_action, h]
  · intro h
    simp [can_perform_action, h]
  · intro h1 h2
    have hnone : check_permission_level sys user_id bucket_id = "none" := by
      unfold check_permission_level
      rw [if_neg h1, h2]
    simp [can_perform_action, hnone]

/-- Witness for C4: with `alice_docs` shared with `bob` at `upload`
level, `bob` may upload but may not perform `full` actions. -/
theorem C4_authorization_matrix_witness :
    can_perform_action sysC4 "bob" "alice_docs" "upload" = true
    ∧ can_perform_action sysC4 "bob" "alice_docs" "full" = false := by
  have h1 := C4_authorization_matrix sysC4 "bob" "alice_docs" "upload"
    (Or.inr (Or.inl rfl))
  have h2 := C4_authorization_matrix sysC4 "bob" "alice_docs" "full"
    (Or.inr (Or.inr rfl))
  have hlvl : check_permission_level sysC4 "bob" "alice_docs" = "upload" := by decide
  constructor
  · exact (h1.2.2.1 hlvl).mpr (Or.inr rfl)
  · cases hc : can_perform_action sysC4 "bob" "alice_docs" "full"
    · rfl
    · rcases (h2.2.2.1 hlvl).mp hc with h | h <;> exact absurd h (by decide)

set_option maxRecDepth 8192 in
/-- C5 counterexample: for the upload of `x.exe` (a blocked extension)
the rejection returned by the code is the allow-list rejection, while
the claim's check order (blocklist first) would return the blocklist
rejection: the blocked-set check is not applied before the allowed-set
check. -/
theorem C5_counterexample :
    validate_file (fun s => s) "x.exe" none = (false, allowedRejectMsg)
    ∧ validate_file_spec_order (fun s => s) "x.exe" none
        = (false, blockedRejectMsg)
    ∧ allowedRejectMsg ≠ blockedRejectMsg := by
  refine ⟨by decide, by decide, by decide⟩

/-- C5 (amended): every upload whose sanitized name carries a blocked
extension is rejected with no state change (no bytes persisted) — but
the rejection is produced by the allow-list check, which the code

applies first; a blocked extension reaching the blocklist check is
rejected there. -/
theorem C5_blocked_always_rejected (sys : Sys) (sanitize : String → String)
    (user_id bucket_name filename : String) (cl : Option Nat) (size : Nat)
    (file_id now : String) (w1 w2 : Bool)
    (hb : BLOCKED_EXTENSIONS.contains
      (strLower (pathSuffix (sanitize filename))) = true) :
    (validate_file sanitize filename cl).1 = false
    ∧ (upload_file sys sanitize user_id bucket_name filename cl size file_id
        now w1 w2).1 = sys
    ∧ (upload_file sys sanitize user_id bucket_name filename cl size file_id
        now w1 w2).2.1 = false := by
  have hv : (validate_file sanitize filename cl).1 = false := by
    unfold validate_file
    by_cases h0 : filename = ""
    · rw [if_pos h0]
    · rw [if_neg h0]
      by_cases h1 : (match cl with
        | some n => n != 0 && decide (MAX_FILE_SIZE < n)
        | none => false) = true
      · rw [if_pos h1]
      · rw [if_neg h1]
        by_cases h2 : ALLOWED_EXTENSIONS ≠ [] ∧
            ¬ ALLOWED_EXTENSIONS.contains
              (strLower (pathSuffix (sanitize filename))) = true
        · rw [if_pos h2]
        · rw [if_neg h2, if_pos hb]
  have hu : ∀ r : Sys × Bool × String × Option FileMeta,
      r = upload_file sys sanitize user_id bucket_name filename cl size file_id
        now w1 w2 → r.1 = sys ∧ r.2.1 = false := by
    intro r hr
    unfold upload_file at hr
    by_cases h0 : filename = ""
    · rw [if_pos h0] at hr
      rw [hr]
      exact ⟨rfl, rfl⟩
    · rw [if_neg h0] at hr
      by_cases hbk : (get_user_buckets sys user_id).contains bucket_name = true
      · rw [if_neg (show ¬¬(get_user_buckets sys user_id).contains bucket_name
            = true from fun hc => hc hbk)] at hr
        rw [if_pos (by simp [hv])] at hr
        rw [hr]
        exact ⟨rfl, rfl⟩
      · rw [if_pos (by simpa using hbk)] at hr
        rw [hr]
        exact ⟨rfl, rfl⟩
  obtain ⟨ha, hb'⟩ := hu _ rfl
  exact ⟨hv, ha, hb'⟩

/-- Witness for C5 (amended): the concrete upload of `x.exe` into `u`'s
bucket `b` is rejected and leaves the state unchanged. -/
theorem C5_blocked_always_rejected_witness :
    (validate_file (fun s => s) "x.exe" none).1 = false
    ∧ (upload_file sysC2 (fun s => s) "u" "b" "x.exe" none 5 "f1"
        "2024-01-01T00:00:00" true true).1 = sysC2
    ∧ (upload_file sysC2 (fun s => s) "u" "b" "x.exe" none 5 "f1"
        "2024-01-01T00:00:00" true true).2.1 = false :=
  C5_blocked_always_rejected sysC2 (fun s => s) "u" "b" "x.exe" none 5 "f1"
    "2024-01-01T00:00:00" true true (by decide)

/-- C8 counterexample: an entry uploaded at 23:59 of day 0, filtered
with `date_range = "today"` at 00:01 of day 1, is rejected by the code
(calendar dates differ) although the elapsed whole days are 0 ≤ 0, so
the claim's criterion would accept it. -/
theorem C8_counterexample :
    check_date_range parseC8 86460 "d" "today" = false
    ∧ apply_filters parseC8 86460 sdC8 none
        { file_type := none, size_category := none,
          date_range := some "today", bucket_id := none } = false
    ∧ claim_date_range_pass 86340 86460 "today" = true :=
  ⟨by decide, by decide, by decide⟩

/-- C8 (amended): for `week`/`month`/`year` an entry passes the
date-range filter exactly when the elapsed whole days between its
upload date and now are at most 7/30/365; for `today` it passes exactly
when the two calendar dates coincide (not when the elapsed whole days
are ≤ 0). -/
theorem C8_date_range_semantics (parse : String → Option Int) (now up : Int)
    (sd : SearchData) (range : String)
    (hp : parse sd.upload_date = some up) (hs : sd.upload_date ≠ "")
    (hr : range = "today" ∨ range = "week" ∨ range = "month" ∨ range = "year") :
    (apply_filters parse now sd none
        { file_type := none, size_category := none,
          date_range := some range, bucket_id := none } = true
      ↔ check_date_range parse now sd.upload_date range = true)
    ∧ (range = "today" →
      (check_date_range parse now sd.upload_date range = true ↔
        up.fdiv 86400 = now.fdiv 86400))
    ∧ (range = "week" →
      (check_date_range parse now sd.upload_date range = true ↔
        (now - up).fdiv 86400 ≤ 7))
    ∧ (range = "month" →
      (check_date_range parse now sd.upload_date range = true ↔
        (now - up).fdiv 86400 ≤ 30))
    ∧ (range = "year" →
      (check_date_range parse now sd.upload_date range = true ↔
        (now - up).fdiv 86400 ≤ 365)) := by
  have hfilter : apply_filters parse now sd none
      { file_type := none, size_category := none,
        date_range := some range, bucket_id := none } = true
      ↔ check_date_range parse now sd.upload_date range = true := by
    have hrne : range ≠ "" := by
      rcases hr with rfl | rfl | rfl | rfl <;> decide
    unfold apply_filters
    simp only [isTruthy, Option.getD]
    cases hc : check_date_range parse now sd.upload_date range <;>
      simp [hc, hrne]
  refine ⟨hfilter, ?_, ?_, ?_, ?_⟩ <;> intro hrange <;> subst hrange <;>
    unfold check_date_range <;> rw [if_neg hs, hp] <;> simp

/-- C9: a successful rename updates only the display name, in both the
metadata record and the search-index projection; every other field of
both records (in particular `file_path`) and every other part of the
state are unchanged. -/
theorem C9_rename_frame (sys : Sys) (user_id file_id new_name : String)
    (m : FileMeta) (sd : SearchData)
    (hm : lookupA sys.metadata file_id = some m)
    (hsd : lookupA sys.search_index file_id = some sd)
    (hacc : check_bucket_access sys user_id m.bucket_id "full" = true)
    (hname : strTrim new_name ≠ "") :
    (rename_file sys user_id file_id new_name).2.1 = true
    ∧ lookupA (rename_file sys user_id file_id new_name).1.metadata file_id
        = some { m with file_name := strTrim new_name }
    ∧ lookupA (rename_file sys user_id file_id new_name).1.search_index file_id
        = some { sd with file_name := strTrim new_name }
    ∧ (∀ j, j ≠ file_id →
        lookupA (rename_file sys user_id file_id new_name).1.metadata j
          = lookupA sys.metadata j
        ∧ lookupA (rename_file sys user_id file_id new_name).1.search_index j
          = lookupA sys.search_index j)
    ∧ (rename_file sys user_id file_id new_name).1.users = sys.users
    ∧ (rename_file sys user_id file_id new_name).1.permissions = sys.permissions
    ∧ (rename_file sys user_id file_id new_name).1.buckets = sys.buckets
    ∧ (rename_file sys user_id file_id new_name).1.files = sys.files := by
  have hmg : get_file_metadata sys file_id = some m := hm
  have hC : ¬¬ check_bucket_access sys user_id m.bucket_id "full" = true :=
    fun hc => hc hacc
  have hname0 : ¬(new_name = "" ∨ strTrim new_name = "") := by
    rintro (h | h)
    · subst h
      exact hname rfl
    · exact hname h
  have hr : rename_file sys user_id file_id new_name =
      ({ sys with
          metadata := sys.metadata.map (fun kv =>
            if kv.1 = file_id then
              (kv.1, { kv.2 with file_name := strTrim new_name }) else kv),
          search_index := sys.search_index.map (fun kv =>
            if kv.1 = file_id then
              (kv.1, { kv.2 with file_name := strTrim new_name }) else kv) },
        true, "File renamed successfully") := by
    unfold rename_file
    simp only [hmg]
    rw [if_neg hC, if_neg hname0, if_pos (lookupA_any_true _ _ _ hm),
      if_pos (lookupA_any_true _ _ _ hsd)]
  rw [hr]
  refine ⟨rfl, ?_, ?_, ?_, rfl, rfl, rfl, rfl⟩
  · exact updMap_lookup_self sys.metadata file_id
      (fun r => { r with file_name := strTrim new_name }) m hm
  · exact updMap_lookup_self sys.search_index file_id
      (fun r => { r with file_name := strTrim new_name }) sd hsd
  · intro j hj
    exact ⟨updMap_lookup_ne sys.metadata file_id j
        (fun r => { r with file_name := strTrim new_name }) hj,
      updMap_lookup_ne sys.search_index file_id j
        (fun r => { r with file_name := strTrim new_name }) hj⟩

/-- Witness for C9: `alice` renames her file `f1` to `" b.txt "`; the
display name becomes the stripped `"b.txt"` in both records, the path
is untouched. -/
theorem C9_rename_frame_witness :
    (rename_file sysC3 "alice" "f1" " b.txt ").2.1 = true
    ∧ lookupA (rename_file sysC3 "alice" "f1" " b.txt ").1.metadata "f1"
        = some { metaF1 with file_name := strTrim " b.txt " }
    ∧ lookupA (rename_file sysC3 "alice" "f1" " b.txt ").1.search_index "f1"
        = some { toSearchData metaF1 with file_name := strTrim " b.txt " }
    ∧ (∀ j, j ≠ "f1" →
        lookupA (rename_file sysC3 "alice" "f1" " b.txt ").1.metadata j
          = lookupA sysC3.metadata j
        ∧ lookupA (rename_file sysC3 "alice" "f1" " b.txt ").1.search_index j
          = lookupA sysC3.search_index j)
    ∧ (rename_file sysC3 "alice" "f1" " b.txt ").1.users = sysC3.users
    ∧ (rename_file sysC3 "alice" "f1" " b.txt ").1.permissions = sysC3.permissions
    ∧ (rename_file sysC3 "alice" "f1" " b.txt ").1.buckets = sysC3.buckets
    ∧ (rename_file sysC3 "alice" "f1" " b.txt ").1.files = sysC3.files :=
  C9_rename_frame sysC3 "alice" "f1" " b.txt " metaF1 (toSearchData metaF1)
    (by decide) (by decide) (by decide) (by decide)

/-- C3: evaluating `delete_bucket` at a state where `alice`'s bucket
`docs` (one file, one share to `bob`) is deleted: the object metadata,
search-index entry and physical tree are removed and the call succeeds,
but the permission record referencing the deleted bucket remains — the
purge the claim (and the spec's stated invariant) requires is missing
from the code. -/
theorem C3_delete_bucket_keeps_stale_permission :
    (delete_bucket sysC3 "alice" "docs").2.1 = true
    ∧ (delete_bucket sysC3 "alice" "docs").1.metadata = []
    ∧ (delete_bucket sysC3 "alice" "docs").1.search_index = []
    ∧ (delete_bucket sysC3 "alice" "docs").1.files = []
    ∧ (delete_bucket sysC3 "alice" "docs").1.buckets = []
    ∧ (delete_bucket sysC3 "alice" "docs").1.permissions
        = [("alice_docs_bob", permViewBob)] :=
  ⟨by decide, by decide, by decide, by decide, by decide, by decide⟩

set_option maxRecDepth 8192 in
/-- C2 counterexample: an upload during which the object-metadata write
succeeds but the search-index write fails: the physical bytes are
rolled back and failure is returned, yet the object-metadata record for
the new file id remains — an object artifact survives the failed
upload. -/
theorem C2_counterexample :
    (upload_file sysC2 (fun s => s) "u" "b" "doc.txt" none 5 "f1"
      "2024-01-01T00:00:00" true false).2.1 = false
    ∧ (upload_file sysC2 (fun s => s) "u" "b" "doc.txt" none 5 "f1"
      "2024-01-01T00:00:00" true false).1.files = []
    ∧ lookupA (upload_file sysC2 (fun s => s) "u" "b" "doc.txt" none 5 "f1"
      "2024-01-01T00:00:00" true false).1.metadata "f1" ≠ none :=
  ⟨by decide, by decide, by decide⟩

/-- C2 (amended): when the compound metadata persistence reports
failure after the bytes were written, the upload returns failure and
the written bytes are deleted; but the object-metadata record remains
exactly when its own write succeeded, and likewise the search-index
entry — only the physical bytes are rolled back, not a partially
persisted record pair.  (When both writes fail, no artifact at all
remains, as the claim says.) -/
theorem C2_upload_rollback (sys : Sys) (sanitize : String → String)
    (user_id bucket_name filename : String) (cl : Option Nat) (size : Nat)
    (file_id now : String) (w1 w2 : Bool)
    (hfn : filename ≠ "")
    (hbk : (get_user_buckets sys user_id).contains bucket_name = true)
    (hv : (validate_file sanitize filename cl).1 = true)
    (hw : (w1 && w2) = false)
    (hfresh : (mkUploadMeta sanitize user_id bucket_name filename size file_id
      now).file_path ∉ sys.files)
    (hmd : lookupA sys.metadata file_id = none)
    (hsi : lookupA sys.search_index file_id = none) :
    (upload_file sys sanitize user_id bucket_name filename cl size file_id now
      w1 w2).2.1 = false
    ∧ (upload_file sys sanitize user_id bucket_name filename cl size file_id now
      w1 w2).2.2.1 = "Failed to save file metadata"
    ∧ (upload_file sys sanitize user_id bucket_name filename cl size file_id now
      w1 w2).1.files = sys.files
    ∧ lookupA (upload_file sys sanitize user_id bucket_name filename cl size
        file_id now w1 w2).1.metadata file_id
      = (if w1 then some (mkUploadMeta sanitize user_id bucket_name filename
          size file_id now) else none)
    ∧ lookupA (upload_file sys sanitize user_id bucket_name filename cl size
        file_id now w1 w2).1.search_index file_id
      = (if w2 then some (toSearchData (mkUploadMeta sanitize user_id
          bucket_name filename size file_id now)) else none)
    ∧ (upload_file sys sanitize user_id bucket_name filename cl size file_id now
      w1 w2).1.users = sys.users
    ∧ (upload_file sys sanitize user_id bucket_name filename cl size file_id now
      w1 w2).1.permissions = sys.permissions
    ∧ (upload_file sys sanitize user_id bucket_name filename cl size file_id now
      w1 w2).1.buckets = sys.buckets := by
  have hr : upload_file sys sanitize user_id bucket_name filename cl size
      file_id now w1 w2
      = (Sys.mk sys.users sys.permissions
          (if w1 then
            setKey sys.metadata
              (mkUploadMeta sanitize user_id bucket_name filename size
                file_id now).file_id
              (mkUploadMeta sanitize user_id bucket_name filename size
                file_id now)
          else sys.metadata)
          (if w2 then
            setKey sys.search_index
              (mkUploadMeta sanitize user_id bucket_name filename size
                file_id now).file_id
              (toSearchData (mkUploadMeta sanitize user_id bucket_name
                filename size file_id now))
          else sys.search_index)
          sys.buckets
          ((sys.files ++ [(mkUploadMeta sanitize user_id bucket_name
              filename size file_id now).file_path]).filter
            (fun p => p ≠ (mkUploadMeta sanitize user_id bucket_name filename
              size file_id now).file_path)),
        false, "Failed to save file metadata", none) := by
    unfold upload_file
    rw [if_neg hfn,
      if_neg (show ¬¬(get_user_buckets sys user_id).contains bucket_name = true
        from fun hc => hc hbk),
      if_neg (show ¬¬(validate_file sanitize filename cl).1 = true
        from fun hc => hc hv)]
    simp only [add_file_metadata]
    rw [if_pos (show ¬((w1 && w2) = true) from by simp [hw])]
  rw [hr]
  refine ⟨rfl, rfl, ?_, ?_, ?_, rfl, rfl, rfl⟩
  · rw [List.filter_append]
    have h1 : sys.files.filter
        (fun p => p ≠ (mkUploadMeta sanitize user_id bucket_name filename size
          file_id now).file_path) = sys.files := by
      rw [List.filter_eq_self]
      intro a ha
      simp only [decide_eq_true_eq]
      exact fun he => hfresh (he ▸ ha)
    rw [h1]
    simp
  · cases w1
    · exact hmd
    · exact setKey_lookup_self sys.metadata file_id
        (mkUploadMeta sanitize user_id bucket_name filename size file_id now)
  · cases w2
    · exact hsi
    · exact setKey_lookup_self sys.search_index file_id
        (toSearchData (mkUploadMeta sanitize user_id bucket_name filename size
          file_id now))

/-- C10: `share_bucket` never consults the uploads tree: under the
operation's own success conditions (valid level, owner part of the
bucket id matching, registered grantee distinct from the owner) the
share succeeds and leaves a permission record at the pair's key with
the requested level, and both its outcome and the resulting permission
collection are identical for every value of the `buckets` (directory)
component — in particular when the bucket does not exist. -/
theorem C10_share_ignores_bucket_existence (sys : Sys)
    (now owner_id bucket_id email level rest : String) (u : UserRec)
    (hl : PERMISSION_LEVEL_KEYS.contains level = true)
    (hsplit : splitOnce bucket_id = some (owner_id, rest))
    (hmail : get_user_by_email sys email = some u)
    (hne : u.user_id ≠ owner_id) :
    (share_bucket sys now owner_id bucket_id email level).2.1 = true
    ∧ (∃ p, lookupA
        (share_bucket sys now owner_id bucket_id email level).1.permissions
        (bucket_id ++ "_" ++ u.user_id) = some p ∧ p.permission_level = level)
    ∧ ∀ bs : List (String × String),
        (share_bucket { sys with buckets := bs } now owner_id bucket_id email
          level).1.permissions
          = (share_bucket sys now owner_id bucket_id email level).1.permissions
        ∧ (share_bucket { sys with buckets := bs } now owner_id bucket_id email
          level).2 = (share_bucket sys now owner_id bucket_id email level).2 := by
  cases hgp : get_permission sys bucket_id u.user_id with
  | some p =>
    have hs : ∀ s : Sys, s.users = sys.users → s.permissions = sys.permissions →
        share_bucket s now owner_id bucket_id email level
          = ({ s with permissions := sys.permissions.map (fun kv =>
                if kv.1 = bucket_id ++ "_" ++ u.user_id then
                  (kv.1, { kv.2 with permission_level := level }) else kv) },
            true, "Permission updated to " ++ levelName level) := by
      intro s hu hp
      have hmail' : get_user_by_email s email = some u := by
        unfold get_user_by_email
        rw [hu]
        exact hmail
      have hgp' : get_permission s bucket_id u.user_id = some p := by
        unfold get_permission
        rw [hp]
        exact hgp
      unfold share_bucket
      rw [if_neg (fun hc => hc hl)]
      simp only [hsplit]
      rw [if_neg (show ¬(owner_id ≠ owner_id) from fun hno => hno rfl)]
      simp only [hmail']
      rw [if_neg hne]
      simp only [hgp']
      unfold update_permission
      rw [hp, if_pos (lookupA_any_true sys.permissions _ p hgp)]
      rfl
    refine ⟨?_, ?_, ?_⟩
    · rw [hs sys rfl rfl]
    · rw [hs sys rfl rfl]
      exact ⟨{ p with permission_level := level },
        updMap_lookup_self sys.permissions (bucket_id ++ "_" ++ u.user_id)
          (fun r => { r with permission_level := level }) p hgp, rfl⟩
    · intro bs
      rw [hs sys rfl rfl, hs { sys with buckets := bs } rfl rfl]
      exact ⟨rfl, rfl⟩
  | none =>
    have hs : ∀ s : Sys, s.users = sys.users → s.permissions = sys.permissions →
        share_bucket s now owner_id bucket_id email level
          = ({ s with permissions := (setKey sys.permissions
                (bucket_id ++ "_" ++ u.user_id)
                { bucket_id := bucket_id, owner := owner_id,
                  shared_with := u.user_id, permission_level := level,
                  created_date := now }) },
            true, "Bucket shared with " ++ levelName level ++ " permission") := by
      intro s hu hp
      have hmail' : get_user_by_email s email = some u := by
        unfold get_user_by_email
        rw [hu]
        exact hmail
      have hgp' : get_permission s bucket_id u.user_id = none := by
        unfold get_permission
        rw [hp]
        exact hgp
      unfold share_bucket
      rw [if_neg (fun hc => hc hl)]
      simp only [hsplit]
      rw [if_neg (show ¬(owner_id ≠ owner_id) from fun hno => hno rfl)]
      simp only [hmail']
      rw [if_neg hne]
      simp only [hgp']
      unfold add_permission
      rw [hp]
      rfl
    refine ⟨?_, ?_, ?_⟩
    · rw [hs sys rfl rfl]
    · rw [hs sys rfl rfl]
      exact ⟨⟨bucket_id, owner_id, u.user_id, level, now⟩,
        setKey_lookup_self sys.permissions (bucket_id ++ "_" ++ u.user_id)
          ⟨bucket_id, owner_id, u.user_id, level, now⟩, rfl⟩
    · intro bs
      rw [hs sys rfl rfl, hs { sys with buckets := bs } rfl rfl]
      exact ⟨rfl, rfl⟩

/-- Witness for C10: `alice` shares her nonexistent bucket
`alice_pics` (the state holds no bucket directory at all) with the
registered user `bob`; the share succeeds and the record exists. -/
theorem C10_share_ignores_bucket_existence_witness :
    (share_bucket sysC6 "t0" "alice" "alice_pics" "bob@example.com"
      "view").2.1 = true
    ∧ (∃ p, lookupA (share_bucket sysC6 "t0" "alice" "alice_pics"
        "bob@example.com" "view").1.permissions
        ("alice_pics" ++ "_" ++ "bob") = some p
        ∧ p.permission_level = "view")
    ∧ get_user_buckets sysC6 "alice" = [] := by
  have h := C10_share_ignores_bucket_existence sysC6 "t0" "alice" "alice_pics"
    "bob@example.com" "view" "pics" userBob (by decide) (by decide) (by decide)
    (by decide)
  exact ⟨h.1, h.2.1, rfl⟩

/-- C1: every entry of the list returned by `search_files` carries a
`bucket_id` in the caller's accessible set: either a bucket directory
owned by the caller, or the bucket of a permission record naming the
caller as grantee — for every query and every filter set. -/
theorem C1_search_results_access_controlled (sys : Sys)
    (parse : String → Option Int) (now : Int) (query user_id : String)
    (filters : Option Filters) :
    ∀ e ∈ search_files sys parse now query user_id filters,
      (∃ b ∈ sys.buckets, b.1 = user_id
        ∧ e.sd.bucket_id = user_id ++ "_" ++ b.2)
      ∨ (∃ kv ∈ sys.permissions, kv.2.shared_with = user_id
        ∧ kv.2.bucket_id = e.sd.bucket_id) := by
  intro e he
  unfold search_files at he
  rw [List.mem_filterMap] at he
  obtain ⟨kv, hkv, hsome⟩ := he
  by_cases hacc : (accessible_bucket_ids sys user_id).contains kv.2.bucket_id
    = true
  case neg =>
    rw [if_pos hacc] at hsome
    exact absurd hsome (by simp)
  case pos =>
    have hsd : e.sd = kv.2 := by
      rw [if_neg (fun hc => hc hacc)] at hsome
      by_cases hq : (query ≠ "" ∧
          ¬ hasSub (strLower query) (strLower kv.2.file_name) = true)
      · rw [if_pos hq] at hsome
        exact absurd hsome (by simp)
      · rw [if_neg hq] at hsome
        cases filters with
        | none =>
          dsimp only [] at hsome
          injection hsome with h
          rw [← h]
        | some f =>
          dsimp only [] at hsome
          by_cases hf : ¬ apply_filters parse now kv.2
              (lookupA sys.metadata kv.1) f = true
          · rw [if_pos hf] at hsome
            exact absurd hsome (by simp)
          · rw [if_neg hf] at hsome
            injection hsome with h
            rw [← h]
    rw [hsd]
    have hmem : kv.2.bucket_id ∈ accessible_bucket_ids sys user_id := by
      simpa using hacc
    unfold accessible_bucket_ids at hmem
    rw [List.mem_append] at hmem
    cases hmem with
    | inl h =>
      left
      unfold get_user_buckets at h
      rw [List.mem_map] at h
      obtain ⟨bn, hbn, hbid⟩ := h
      rw [List.mem_map] at hbn
      obtain ⟨b, hb, hb2⟩ := hbn
      rw [List.mem_filter] at hb
      exact ⟨b, hb.1, by simpa using hb.2, by rw [← hbid, hb2]⟩
    | inr h =>
      right
      unfold get_shared_buckets_for_user at h
      rw [List.mem_map] at h
      obtain ⟨p, hp, hpb⟩ := h
      rw [List.mem_filter] at hp
      obtain ⟨hpmem, hpsw⟩ := hp
      rw [List.mem_map] at hpmem
      obtain ⟨kv', hkv', hkv2⟩ := hpmem
      exact ⟨kv', hkv', by rw [hkv2]; simpa using hpsw, by rw [hkv2, hpb]⟩

/-- Witness for C1: in a state where `u` owns bucket `docs` with one
indexed file, the single search result is accounted for by the owned
branch of the accessible set. -/
theorem C1_search_results_access_controlled_witness :
    (∃ b ∈ sysC1.buckets, b.1 = "u"
      ∧ (MergedEntry.mk none sdReport).sd.bucket_id = "u" ++ "_" ++ b.2)
    ∨ (∃ kv ∈ sysC1.permissions, kv.2.shared_with = "u"
      ∧ kv.2.bucket_id = (MergedEntry.mk none sdReport).sd.bucket_id) :=
  C1_search_results_access_controlled sysC1 parseNone 0 "" "u" none
    (MergedEntry.mk none sdReport) (by decide)

set_option maxRecDepth 8192 in
/-- Witness for C2 (amended): the concrete upload of `doc.txt` into
`u`'s bucket `b` with the metadata write succeeding and the
search-index write failing. -/
theorem C2_upload_rollback_witness :
    (upload_file sysC2 (fun s => s) "u" "b" "doc.txt" none 5 "f1"
      "2024-01-01T00:00:00" true false).2.1 = false
    ∧ (upload_file sysC2 (fun s => s) "u" "b" "doc.txt" none 5 "f1"
      "2024-01-01T00:00:00" true false).2.2.1 = "Failed to save file metadata"
    ∧ (upload_file sysC2 (fun s => s) "u" "b" "doc.txt" none 5 "f1"
      "2024-01-01T00:00:00" true false).1.files = sysC2.files
    ∧ lookupA (upload_file sysC2 (fun s => s) "u" "b" "doc.txt" none 5 "f1"
        "2024-01-01T00:00:00" true false).1.metadata "f1"
      = (if true then some (mkUploadMeta (fun s => s) "u" "b" "doc.txt" 5 "f1"
          "2024-01-01T00:00:00") else none)
    ∧ lookupA (upload_file sysC2 (fun s => s) "u" "b" "doc.txt" none 5 "f1"
        "2024-01-01T00:00:00" true false).1.search_index "f1"
      = (if false then some (toSearchData (mkUploadMeta (fun s => s) "u" "b"
          "doc.txt" 5 "f1" "2024-01-01T00:00:00")) else none)
    ∧ (upload_file sysC2 (fun s => s) "u" "b" "doc.txt" none 5 "f1"
      "2024-01-01T00:00:00" true false).1.users = sysC2.users
    ∧ (upload_file sysC2 (fun s => s) "u" "b" "doc.txt" none 5 "f1"
      "2024-01-01T00:00:00" true false).1.permissions = sysC2.permissions
    ∧ (upload_file sysC2 (fun s => s) "u" "b" "doc.txt" none 5 "f1"
      "2024-01-01T00:00:00" true false).1.buckets = sysC2.buckets :=
  C2_upload_rollback sysC2 (fun s => s) "u" "b" "doc.txt" none 5 "f1"
    "2024-01-01T00:00:00" true false (by decide) (by decide) (by decide)
    (by decide) (by decide) (by decide) (by decide)

/-- Witness for C8 (amended): the `week` filter at the concrete instant
86460 s on an entry uploaded at 86340 s. -/
theorem C8_date_range_semantics_witness :
    (apply_filters parseC8 86460 sdC8 none
        { file_type := none, size_category := none,
          date_range := some "week", bucket_id := none } = true
      ↔ check_date_range parseC8 86460 sdC8.upload_date "week" = true)
    ∧ ("week" = "today" →
      (check_date_range parseC8 86460 sdC8.upload_date "week" = true ↔
        (86340 : Int).fdiv 86400 = (86460 : Int).fdiv 86400))
    ∧ ("week" = "week" →
      (check_date_range parseC8 86460 sdC8.upload_date "week" = true ↔
        ((86460 : Int) - 86340).fdiv 86400 ≤ 7))
    ∧ ("week" = "month" →
      (check_date_range parseC8 86460 sdC8.upload_date "week" = true ↔
        ((86460 : Int) - 86340).fdiv 86400 ≤ 30))
    ∧ ("week" = "year" →
      (check_date_range parseC8 86460 sdC8.upload_date "week" = true ↔
        ((86460 : Int) - 86340).fdiv 86400 ≤ 365)) :=
  C8_date_range_semantics parseC8 86460 86340 sdC8 "week" (by decide)
    (by decide) (Or.inr (Or.inl rfl))

/-- C6: sharing is idempotent on (bucket, grantee): on a state whose
permission collection is well-formed (each key joins its record's
fields, grantee ids are underscore-free, keys unique), sharing the same
bucket with the same grantee twice — with any valid levels — succeeds
both times and leaves exactly one permission record for the pair, whose
level is the one given by the second share. -/
theorem C6_share_twice_single_record (sys : Sys)
    (now1 now2 owner_id bucket_id email l1 l2 rest : String) (u : UserRec)
    (hl1 : PERMISSION_LEVEL_KEYS.contains l1 = true)
    (hl2 : PERMISSION_LEVEL_KEYS.contains l2 = true)
    (hsplit : splitOnce bucket_id = some (owner_id, rest))
    (hmail : get_user_by_email sys email = some u)
    (hne : u.user_id ≠ owner_id)
    (hwf : ∀ kv ∈ sys.permissions,
      kv.1 = kv.2.bucket_id ++ "_" ++ kv.2.shared_with)
    (hfree : ∀ kv ∈ sys.permissions, '_' ∉ kv.2.shared_with.data)
    (hufree : '_' ∉ u.user_id.data)
    (hnd : (sys.permissions.map (fun kv => kv.1)).Nodup) :
    (share_bucket sys now1 owner_id bucket_id email l1).2.1 = true
    ∧ (share_bucket (share_bucket sys now1 owner_id bucket_id email l1).1
        now2 owner_id bucket_id email l2).2.1 = true
    ∧ (((share_bucket (share_bucket sys now1 owner_id bucket_id email l1).1
          now2 owner_id bucket_id email l2).1.permissions.filter
        (fun kv => kv.2.bucket_id = bucket_id ∧ kv.2.shared_with = u.user_id)).map
        (fun kv => kv.2.permission_level)) = [l2] := by
  cases hgp : get_permission sys bucket_id u.user_id with
  | some p =>
    have e1 := share_bucket_update_eq sys now1 owner_id bucket_id email l1 rest
      u p hl1 hsplit hmail hne hgp
    have hmail1 : get_user_by_email
        (share_bucket sys now1 owner_id bucket_id email l1).1 email = some u := by
      rw [e1]
      exact hmail
    have hgp1 : get_permission
        (share_bucket sys now1 owner_id bucket_id email l1).1 bucket_id
        u.user_id = some { p with permission_level := l1 } := by
      rw [e1]
      exact updMap_lookup_self sys.permissions (bucket_id ++ "_" ++ u.user_id)
        (fun r => { r with permission_level := l1 }) p hgp
    have e2 := share_bucket_update_eq
      (share_bucket sys now1 owner_id bucket_id email l1).1 now2 owner_id
      bucket_id email l2 rest u _ hl2 hsplit hmail1 hne hgp1
    refine ⟨by rw [e1], by rw [e2], ?_⟩
    rw [e2, e1]
    exact filter_updated bucket_id u.user_id l2 hufree
      (sys.permissions.map (fun kv =>
        if kv.1 = bucket_id ++ "_" ++ u.user_id then
          (kv.1, { kv.2 with permission_level := l1 }) else kv))
      (updMap_wf sys.permissions (bucket_id ++ "_" ++ u.user_id) l1 hwf)
      (updMap_free sys.permissions (bucket_id ++ "_" ++ u.user_id) l1 hfree)
      (by rw [updMap_keys]; exact hnd)
      { p with permission_level := l1 }
      (updMap_lookup_self sys.permissions (bucket_id ++ "_" ++ u.user_id)
        (fun r => { r with permission_level := l1 }) p hgp)
  | none =>
    have e1 := share_bucket_add_eq sys now1 owner_id bucket_id email l1 rest
      u hl1 hsplit hmail hne hgp
    have hsk : setKey sys.permissions (bucket_id ++ "_" ++ u.user_id)
        ⟨bucket_id, owner_id, u.user_id, l1, now1⟩
        = sys.permissions ++ [(bucket_id ++ "_" ++ u.user_id,
            ⟨bucket_id, owner_id, u.user_id, l1, now1⟩)] := by
      unfold setKey
      rw [if_neg (show ¬ _ from by
        rw [lookupA_any_false sys.permissions _ hgp]
        exact fun h => Bool.noConfusion h)]
    have hmail1 : get_user_by_email
        (share_bucket sys now1 owner_id bucket_id email l1).1 email = some u := by
      rw [e1]
      exact hmail
    have hgp1 : get_permission
        (share_bucket sys now1 owner_id bucket_id email l1).1 bucket_id
        u.user_id = some ⟨bucket_id, owner_id, u.user_id, l1, now1⟩ := by
      rw [e1]
      show lookupA (setKey sys.permissions (bucket_id ++ "_" ++ u.user_id)
        ⟨bucket_id, owner_id, u.user_id, l1, now1⟩)
        (bucket_id ++ "_" ++ u.user_id) = _
      rw [hsk, lookupA_append_left _ _ _ hgp, lookupA_cons, if_pos rfl]
    have e2 := share_bucket_update_eq
      (share_bucket sys now1 owner_id bucket_id email l1).1 now2 owner_id
      bucket_id email l2 rest u _ hl2 hsplit hmail1 hne hgp1
    refine ⟨by rw [e1], by rw [e2], ?_⟩
    rw [e2, e1]
    have hKmem : bucket_id ++ "_" ++ u.user_id ∉
        sys.permissions.map (fun kv => kv.1) := by
      intro hmem
      rw [List.mem_map] at hmem
      obtain ⟨kv0, h0, hk0⟩ := hmem
      exact lookupA_none_forall sys.permissions _ hgp kv0 h0 hk0
    refine filter_updated bucket_id u.user_id l2 hufree
      (setKey sys.permissions (bucket_id ++ "_" ++ u.user_id)
        ⟨bucket_id, owner_id, u.user_id, l1, now1⟩)
      ?_ ?_ ?_ ⟨bucket_id, owner_id, u.user_id, l1, now1⟩ ?_
    · rw [hsk]
      intro kv hkv
      rw [List.mem_append] at hkv
      cases hkv with
      | inl h => exact hwf kv h
      | inr h =>
        rw [List.mem_singleton] at h
        rw [h]
    · rw [hsk]
      intro kv hkv
      rw [List.mem_append] at hkv
      cases hkv with
      | inl h => exact hfree kv h
      | inr h =>
        rw [List.mem_singleton] at h
        rw [h]
        exact hufree
    · rw [hsk, List.map_append, List.nodup_append]
      refine ⟨hnd, by simp, ?_⟩
      intro a ha
      rw [List.mem_map] at ha
      obtain ⟨kv0, h0, hk0⟩ := ha
      simp only [List.map_cons, List.map_nil, List.mem_singleton]
      intro he
      exact lookupA_none_forall sys.permissions _ hgp kv0 h0 (by rw [hk0, he])
    · rw [hsk, lookupA_append_left _ _ _ hgp, lookupA_cons, if_pos rfl]

/-- Witness for C6: starting from the empty permission collection,
`alice` shares `alice_pics` with `bob` at `view`, then again at `full`:
both succeed and exactly one record for the pair remains, at level
`full`. -/
theorem C6_share_twice_single_record_witness :
    (share_bucket sysC6 "t1" "alice" "alice_pics" "bob@example.com"
      "view").2.1 = true
    ∧ (share_bucket (share_bucket sysC6 "t1" "alice" "alice_pics"
        "bob@example.com" "view").1 "t2" "alice" "alice_pics"
        "bob@example.com" "full").2.1 = true
    ∧ (((share_bucket (share_bucket sysC6 "t1" "alice" "alice_pics"
          "bob@example.com" "view").1 "t2" "alice" "alice_pics"
          "bob@example.com" "full").1.permissions.filter
        (fun kv => kv.2.bucket_id = "alice_pics"
          ∧ kv.2.shared_with = userBob.user_id)).map
        (fun kv => kv.2.permission_level)) = ["full"] :=
  C6_share_twice_single_record sysC6 "t1" "t2" "alice" "alice_pics"
    "bob@example.com" "view" "full" "pics" userBob (by decide) (by decide)
    (by decide) (by decide) (by decide)
    (fun kv h => absurd h (List.not_mem_nil kv))
    (fun kv h => absurd h (List.not_mem_nil kv))
    (by decide) List.nodup_nil

theorem startsMatch_score (ql : String) (e : Enriched) (h : startsMatch ql e) :
    50 ≤ calculate_relevance_score ql e ∧ calculate_relevance_score ql e ≤ 65 := by
  obtain ⟨h1, h2⟩ := h
  simp only [calculate_relevance_score]
  rw [if_neg h1, if_pos h2]
  constructor <;> (split_ifs <;> omega)

theorem innerMatch_score (ql : String) (e : Enriched) (h : innerMatch ql e) :
    calculate_relevance_score ql e ≤ 40 := by
  obtain ⟨h1, h2, h3⟩ := h
  simp only [calculate_relevance_score]
  rw [if_neg h1, if_neg h2, if_pos h3]
  split_ifs <;> omega

/-- C7 (amended): the returned list is a permutation of the input,
sorted descending by (relevance score, upload date) for a non-empty
query and purely by upload date for an empty query, where the score's
ownership bonus is the code's: +5 when the file's bucket-owner part
equals the file's uploader (the requesting user plays no role); every
leading-substring match is placed strictly before every
inner-substring match. -/
theorem C7_ranking (q : String) (l : List Enriched) :
    (sort_search_results l q).Perm l
    ∧ (q = "" → (sort_search_results l q).Pairwise dateGE)
    ∧ (q ≠ "" → (sort_search_results l q).Pairwise (scoreGE (strLower q)))
    ∧ (q ≠ "" → ∀ a b : Enriched, startsMatch (strLower q) a →
        innerMatch (strLower q) b →
        ∀ (i j : Fin (sort_search_results l q).length),
          (sort_search_results l q).get i = a →
          (sort_search_results l q).get j = b → (i : Nat) < (j : Nat)) := by
  have hperm : (sort_search_results l q).Perm l := by
    unfold sort_search_results
    by_cases hc : q = "" ∨ l = []
    · rw [if_pos hc]
      exact List.perm_insertionSort _ _
    · rw [if_neg hc]
      exact List.perm_insertionSort _ _
  have hdate : q = "" → (sort_search_results l q).Pairwise dateGE := by
    intro hq
    unfold sort_search_results
    rw [if_pos (Or.inl hq)]
    exact List.sorted_insertionSort _ _
  have hscore : q ≠ "" →
      (sort_search_results l q).Pairwise (scoreGE (strLower q)) := by
    intro hq
    unfold sort_search_results
    by_cases hl : l = []
    · rw [if_pos (Or.inr hl), hl]
      exact List.Pairwise.nil
    · rw [if_neg (by
        rintro (h | h)
        · exact hq h
        · exact hl h)]
      exact List.sorted_insertionSort _ _
  refine ⟨hperm, hdate, hscore, ?_⟩
  intro hq a b ha hb i j hi hj
  have hab : a ≠ b := by
    intro he
    rw [he] at ha
    exact hb.2.1 ha.2
  rcases Nat.lt_trichotomy (i : Nat) (j : Nat) with h | h | h
  · exact h
  · exfalso
    have hije : i = j := Fin.ext h
    rw [hije, hj] at hi
    exact hab hi.symm
  · exfalso
    have hp := List.pairwise_iff_get.mp (hscore hq) j i h
    rw [hi, hj] at hp
    have hsa := startsMatch_score (strLower q) a ha
    have hsb := innerMatch_score (strLower q) b hb
    rcases hp with hlt | ⟨heq, _⟩
    · omega
    · omega

/-- Witness for C7 (amended): for the query `"report"` on the pair
(inner-substring match, leading-substring match) the returned list is a
sorted permutation and the leading match lands strictly first; with the
empty query the same list is date-sorted. -/
theorem C7_ranking_witness :
    (sort_search_results listC7 "report").Perm listC7
    ∧ (sort_search_results listC7 "report").Pairwise (scoreGE (strLower "report"))
    ∧ (sort_search_results listC7 "").Pairwise dateGE
    ∧ (0 : Nat) < 1 :=
  ⟨(C7_ranking "report" listC7).1,
    (C7_ranking "report" listC7).2.2.1 (by decide),
    (C7_ranking "" listC7).2.1 rfl,
    (C7_ranking "report" listC7).2.2.2 (by decide)
      (enrich parseNone 0 sdStarts) (enrich parseNone 0 sdInner)
      ⟨by decide, by decide⟩ ⟨by decide, by decide, by decide⟩
      ⟨0, by decide⟩ ⟨1, by decide⟩ (by decide) (by decide)⟩

/-- C7 counterexample: for requester `bob` and query `"a"`, the code
gives the code's ownership bonus to `alice`'s file (its bucket owner is
its uploader), so both entries score 55 and the newer one — `alice`'s —
is returned first; under the claim's scoring (+5 only when the
*requesting* user owns the file) `bob`'s entry scores 55 and `alice`'s
only 50, so the claim's order (score descending) is violated by the
returned list: its first element has a strictly smaller claim-score
than its second. -/
theorem C7_counterexample :
    sort_search_results listX "a" = listX
    ∧ claim_relevance_score "bob" (strLower "a") (enrich parseNone 0 sdOwnAlice)
      < claim_relevance_score "bob" (strLower "a") (enrich parseNone 0 sdOwnBob) :=
  ⟨by decide, by decide⟩

end S3
